import Mathlib

/-!
Shallow embedding of the `mne.fiff` evoked-response codec
(`mne/fiff/evoked.py` and `mne/fiff/write.py`) and proofs about it.

Numeric model: IEEE floating-point values are represented by rationals.
All in-memory arithmetic (numpy float64 operations) is exact rational
arithmetic; the lossy float32 re-encoding performed by the tag writers
(`write_float`, `write_float_matrix`, `write_ch_info`, ...) is an abstract
parameter `f32 : Rat -> Rat` threaded through the writer, so every theorem
that speaks about wire precision is stated relative to that re-encoding
function.  Integer payloads are written through an explicit 32-bit wrap
`i32`, mirroring the `'>i4'` encodings in `write.py`.

The file store is modelled at tag granularity: a written file is a list of
`WTag` records (tag kind plus decoded payload).  A directory entry of a
block holds the payload of the tag at its recorded offset (the source reads
it back with `read_tag(fid, pos)`; the store lookup is composed into the
entry).
-/

namespace Fiff

/-! ### Tag and block kind codes

Modelled from the spec: the numeric dictionary (`mne/fiff/constants.py`) is
not part of the verified sources; only the distinctness and fixedness of
the codes matter to the logic, so the familiar FIFF values are used where
known and fresh distinct values otherwise. -/

def FIFFB_MEAS : Int := 100
def FIFFB_MEAS_INFO : Int := 101
def FIFFB_SUBJECT : Int := 106
def FIFFB_ISOTRAK : Int := 107
def FIFFB_HPI_MEAS : Int := 108
def FIFFB_HPI_RESULT : Int := 109
def FIFFB_PROCESSED_DATA : Int := 110
def FIFFB_EVOKED : Int := 111
def FIFFB_ASPECT : Int := 112
def FIFFB_SMSH_ASPECT : Int := 10002
def FIFFB_PROCESSING_HISTORY : Int := 900
def FIFFB_PROJ : Int := 313
def FIFFB_MNE_CTF_COMP : Int := 355
def FIFFB_MNE_BAD_CHANNELS : Int := 359
def FIFFB_ROOT : Int := 999

def FIFF_FILE_ID : Int := 100
def FIFF_DIR_POINTER : Int := 101
def FIFF_BLOCK_ID : Int := 103
def FIFF_BLOCK_START : Int := 104
def FIFF_BLOCK_END : Int := 105
def FIFF_FREE_LIST : Int := 106
def FIFF_NOP : Int := 108
def FIFF_PARENT_BLOCK_ID : Int := 110
def FIFF_NCHAN : Int := 200
def FIFF_SFREQ : Int := 201
def FIFF_CH_INFO : Int := 203
def FIFF_MEAS_DATE : Int := 204
def FIFF_COMMENT : Int := 206
def FIFF_ASPECT_KIND : Int := 207
def FIFF_FIRST_SAMPLE : Int := 208
def FIFF_LAST_SAMPLE : Int := 209
def FIFF_NAVE : Int := 210
def FIFF_DIG_POINT : Int := 213
def FIFF_LOWPASS : Int := 219
def FIFF_COORD_TRANS : Int := 222
def FIFF_HIGHPASS : Int := 223
def FIFF_EPOCH : Int := 302
def FIFF_PROJ_ITEM : Int := 3411
def FIFF_CTF_COMP_DATA : Int := 3512
def FIFF_MNE_CH_NAME_LIST : Int := 3507

/-! ### Data model -/

/-- Row-major 2-D float matrix (numpy `ndarray` with `ndim = 2`). -/
abbrev Mat := List (List Rat)

/-- Column count of a matrix, i.e. numpy `shape[1]` (length of the first
row; matrices decoded from tags are rectangular). -/
def ncols (m : Mat) : Nat := (m.headD []).length

/-- Channel information record (`fiffChInfoRec`). -/
structure ChInfo where
  scanno : Int
  logno : Int
  kind : Int
  range : Rat
  cal : Rat
  coil_type : Int
  loc : List Rat
  unit : Int
  unit_mul : Int
  ch_name : String
deriving DecidableEq, Repr

def chZero : ChInfo :=
  ⟨0, 0, 0, 0, 0, 0, [], 0, 0, ""⟩

/-- Digitizer point record (`fiffDigPointRec`). -/
structure DigPoint where
  kind : Int
  ident : Int
  r : List Rat
deriving DecidableEq, Repr

/-- Coordinate transformation: source and destination frames plus the 4 x 4
homogeneous forward transform (`trans['trans']`). -/
structure CoordTrans where
  from_ : Int
  to_ : Int
  trans : Mat
deriving DecidableEq, Repr

/-- Decoded payload of one tag.  The writer's wire inverse-transform of a
coordinate-transform tag is derived data never read back by this core, so a
coord-trans payload stores the (f32-encoded) forward struct. -/
inductive TagData where
  | intData (n : Int)
  | floatData (q : Rat)
  | stringData (s : String)
  | matrixData (m : Mat)
  | chData (c : ChInfo)
  | digData (d : DigPoint)
  | transData (t : CoordTrans)
  | idData
  | voidData
deriving DecidableEq, Repr

/-- One directory entry of a block: the tag kind together with the payload
stored at the entry's recorded offset. -/
structure DirEntry where
  kind : Int
  data : TagData
deriving DecidableEq, Repr

/-- Block tree node (`TreeNode` of the spec): block kind, directory of tags
belonging to the block, nested sub-blocks. -/
inductive Tree where
  | node (block : Int) (directory : List DirEntry) (children : List Tree)
deriving Repr

def Tree.block : Tree → Int
  | .node b _ _ => b

def Tree.directory : Tree → List DirEntry
  | .node _ d _ => d

def Tree.children : Tree → List Tree
  | .node _ _ c => c

/-- One tag as emitted to the file by the writer. -/
structure WTag where
  kind : Int
  data : TagData
deriving DecidableEq, Repr

/-- Measurement-info record (the `info` dict/Bunch).  Attribute access and
item access coincide on the source's Bunch, so it is a plain structure. -/
structure MeasInfo where
  sfreq : Rat
  highpass : Rat
  lowpass : Rat
  nchan : Int
  chs : List ChInfo
  meas_date : Option Int
  meas_id : Option Int
  dev_head_t : Option CoordTrans
  ctf_head_t : Option CoordTrans
  dig : Option (List DigPoint)
  projs : List Int
  comps : Option (List Int)
  bads : List String
  filename : Option String
deriving DecidableEq, Repr

/-- The assembled evoked dataset (class `Evoked`). -/
structure Evoked where
  info : MeasInfo
  nave : Int
  aspect_kind : Int
  first : Int
  last : Int
  comment : String
  times : List Rat
  data : Mat
deriving DecidableEq, Repr

/-- Failure kinds.  Each constructor corresponds to one concrete `raise`
site or dynamic failure of the source. -/
inductive Err where
  /-- `open()` on a missing source file. -/
  | ioError
  /-- line 66: `Data set selector must be positive`. -/
  | selectorNegative
  /-- line 79: `Could not find processed data`. -/
  | noProcessed
  /-- line 84: `Could not find evoked data`. -/
  | noEvoked
  /-- line 108: `np.ones(1, sets[k]['naspect'])` where `naspect` was
  overwritten with a two-element list, used as a dtype: `TypeError`. -/
  | typeError
  /-- `np.r_` of rows whose column counts disagree: `ValueError`. -/
  | rShapeMismatch
  /-- line 116: `Data set selector out of range`. -/
  | selectorOutOfRange
  /-- line 134: `Desired data set not found`. -/
  | notFound
  /-- use of `first`, `last` or `aspect_kind` never assigned during the
  scan: `NameError`. -/
  | nameError
  /-- line 177: `Number of channels and number of channel definitions are
  different`. -/
  | localChCount
  /-- line 217: `Number of epoch tags is unreasonable`. -/
  | badNepoch
  /-- line 235: `Incorrect number of samples`. -/
  | badNsamp
  /-- indexing a channel list past its end: `IndexError`. -/
  | indexError
  /-- `np.dot` of shape-incompatible operands: `ValueError`. -/
  | dotShapeMismatch
  /-- `scipy.linalg.inv` of a singular transform: `LinAlgError`. -/
  | linAlgError
  /-- `np.zeros((nchan, nchan))` with a negative `nchan`: `ValueError`
  (negative dimensions are not allowed). -/
  | negDims
  /-- `np.where(...)[0]` empty then indexed: `IndexError`. -/
  | whereEmpty
  /-- Modelled from the spec: `parse_measurement_info` finds no measurement
  block. -/
  | noMeas
  /-- Modelled from the spec: no measurement-info block. -/
  | noMeasInfo
  /-- Modelled from the spec: measurement info lacks a required scalar. -/
  | infoIncomplete
deriving DecidableEq, Repr

/-! ### Numeric helpers -/

/-- 32-bit two's-complement wrap, the effect of encoding an integer with
numpy dtype `'>i4'`. -/
def i32 (n : Int) : Int := (n + 2 ^ 31) % 2 ^ 32 - 2 ^ 31

/-- Dot product of two per-element sequences (truncating zip, as in the
inner loop of a matrix product). -/
def dotp (a b : List Rat) : Rat := (List.zipWith (· * ·) a b).sum

/-- Column `j` of a matrix. -/
def colv (j : Nat) (m : Mat) : List Rat := m.map (fun r => r.getD j 0)

/-- Matrix product `np.dot(a, b)`: `none` when the inner dimensions
(`a.shape[1]` versus `b.shape[0]`) disagree and numpy raises
`ValueError`.  Every row of the result has length `ncols b` by
construction, as for a numpy array. -/
def npDot (a b : Mat) : Option Mat :=
  if ncols a = b.length then
    some (a.map (fun ra => (List.range (ncols b)).map (fun j => dotp ra (colv j b))))
  else none

/-- `np.diag` of a vector: square matrix with the vector on the diagonal. -/
def npDiag : List Rat → Mat
  | [] => []
  | c :: cs => (c :: List.replicate cs.length 0) :: (npDiag cs).map (fun r => 0 :: r)

/-- Matrix transpose (`ndarray.T`) of a rectangular matrix. -/
def transposeMat (m : Mat) : Mat :=
  (List.range (ncols m)).map (fun j => colv j m)

/-- Row-wise concatenation `np.r_[a, b]` of two 2-D arrays: the column
counts must agree, else numpy raises `ValueError`. -/
def npVstack (a b : Mat) : Option Mat :=
  if a = [] then some b
  else if b = [] then some a
  else if ncols a = ncols b then some (a ++ b) else none

/-- Determinant of a 3 x 3 matrix. -/
def det3 (m : Mat) : Rat :=
  let a := fun i j => ((m.getD i []).getD j 0 : Rat)
  a 0 0 * (a 1 1 * a 2 2 - a 1 2 * a 2 1)
    - a 0 1 * (a 1 0 * a 2 2 - a 1 2 * a 2 0)
    + a 0 2 * (a 1 0 * a 2 1 - a 1 1 * a 2 0)

/-- Sub-matrix dropping row `i` and column `j`. -/
def minorMat (m : Mat) (i j : Nat) : Mat :=
  (m.eraseIdx i).map (fun r => r.eraseIdx j)

/-- Determinant of a 4 x 4 matrix by Laplace expansion along the first
row; `scipy.linalg.inv` fails exactly when it vanishes. -/
def det4 (m : Mat) : Rat :=
  let a := fun j => ((m.getD 0 []).getD j 0 : Rat)
  a 0 * det3 (minorMat m 0 0) - a 1 * det3 (minorMat m 0 1)
    + a 2 * det3 (minorMat m 0 2) - a 3 * det3 (minorMat m 0 3)

/-- Mean of a list of rationals (`np.mean`); the empty case is division by
zero, which is `0` in `Rat` (numpy would produce NaN — no verified path
evaluates the mean of an empty slice). -/
def listMean (l : List Rat) : Rat := l.sum / l.length

/-! ### Tag writers (`mne/fiff/write.py`) -/

/-- `write_int`: 32-bit integer tag (dtype `'>i4'`). -/
def write_int (kind : Int) (data : Int) : WTag := ⟨kind, .intData (i32 data)⟩

/-- `write_float`: single-precision float tag (dtype `'>f4'`). -/
def write_float (f32 : Rat → Rat) (kind : Int) (data : Rat) : WTag :=
  ⟨kind, .floatData (f32 data)⟩

/-- `write_string`. -/
def write_string (kind : Int) (data : String) : WTag := ⟨kind, .stringData data⟩

/-- `write_name_list`: colon-separated list of names. -/
def write_name_list (kind : Int) (data : List String) : WTag :=
  write_string kind (String.intercalate ":" data)

/-- `write_float_matrix`: a float32 matrix tag; the payload is re-encoded
entrywise (the 3-int dimension trailer is wire bookkeeping subsumed in the
`Mat` shape). -/
def write_float_matrix (f32 : Rat → Rat) (kind : Int) (mat : Mat) : WTag :=
  ⟨kind, .matrixData (mat.map (fun r => r.map f32))⟩

/-- `write_id`: the id payload (version, machine id, timestamp) is never
read back by this core, so it is opaque. -/
def write_id (kind : Int) : WTag := ⟨kind, .idData⟩

/-- `start_block`: a `FIFF_BLOCK_START` int tag holding the block kind. -/
def start_block (kind : Int) : WTag := write_int FIFF_BLOCK_START kind

/-- `end_block`. -/
def end_block (kind : Int) : WTag := write_int FIFF_BLOCK_END kind

/-- `start_file`: the compulsory header tags (id, directory pointer `-1`,
free list `-1`). -/
def start_file_tags : List WTag :=
  [write_id FIFF_FILE_ID, write_int FIFF_DIR_POINTER (-1), write_int FIFF_FREE_LIST (-1)]

/-- `end_file`: the zero-length closing sentinel tag. -/
def end_file_tag : WTag := ⟨FIFF_NOP, .voidData⟩

/-- `write_coord_trans`: fails (`scipy.linalg.inv` raises `LinAlgError`)
when the forward transform is singular; the wire inverse is derived data
never read back, so the tag stores the f32-encoded forward struct.  (In
the source the forward half of the payload is already on the wire when the
inversion fails; the model is tag-atomic.) -/
def write_coord_trans (f32 : Rat → Rat) (trans : CoordTrans) : Except Err WTag :=
  if det4 trans.trans = 0 then .error .linAlgError
  else .ok ⟨FIFF_COORD_TRANS,
    .transData ⟨i32 trans.from_, i32 trans.to_, trans.trans.map (fun r => r.map f32)⟩⟩

/-- The channel record as it lands on the wire: ints wrapped, floats
f32-encoded, a nonempty name truncated to 15 characters (null padding to
16 bytes is wire bookkeeping). -/
def chWire (f32 : Rat → Rat) (ch : ChInfo) : ChInfo :=
  let ch_name := if ch.ch_name.length > 0 then ch.ch_name.take 15 else ch.ch_name
  ⟨i32 ch.scanno, i32 ch.logno, i32 ch.kind, f32 ch.range, f32 ch.cal,
   i32 ch.coil_type, ch.loc.map f32, i32 ch.unit, i32 ch.unit_mul, ch_name⟩

/-- `write_ch_info`. -/
def write_ch_info (f32 : Rat → Rat) (ch : ChInfo) : WTag :=
  ⟨FIFF_CH_INFO, .chData (chWire f32 ch)⟩

/-- `write_dig_point`: kind, ident and the first three location values. -/
def write_dig_point (f32 : Rat → Rat) (dig : DigPoint) : WTag :=
  ⟨FIFF_DIG_POINT, .digData ⟨i32 dig.kind, i32 dig.ident, (dig.r.take 3).map f32⟩⟩

/-! ### Block tree operations -/

mutual
/-- Modelled from the spec: `find_blocks(tree_node, block_kind)`
(`mne/fiff/tree.py`, not among the verified sources): collects the node
itself and every descendant whose block kind matches, in file order. -/
def dir_tree_find : Tree → Int → List Tree
  | .node b d c, kind =>
    (if b = kind then [Tree.node b d c] else []) ++ forest_find c kind

/-- Companion of `dir_tree_find` over a child list. -/
def forest_find : List Tree → Int → List Tree
  | [], _ => []
  | t :: ts, kind => dir_tree_find t kind ++ forest_find ts kind
end

mutual
/-- Serialization of one block subtree as the tag stream reproducing it;
models `copy_tree` (spec: sub-blocks are copied forward byte-for-byte). -/
def serTree : Tree → List WTag
  | .node k d c =>
    start_block k :: (d.map (fun e => WTag.mk e.kind e.data) ++ (serForest c ++ [end_block k]))

/-- Serialization of a list of sibling blocks. -/
def serForest : List Tree → List WTag
  | [] => []
  | t :: ts => serTree t ++ serForest ts
end

/-! ### The writer (`Evoked.save`, lines 273-390) -/

/-- Result of the metadata carry-over pass at the top of `Evoked.save`. -/
structure CopyOut where
  events : List WTag
  have_hpi_result : Bool
  have_isotrak : Bool
deriving Repr

/-- The `blocks` list of line 293. -/
def copyKinds : List Int :=
  [FIFFB_SUBJECT, FIFFB_HPI_MEAS, FIFFB_HPI_RESULT, FIFFB_ISOTRAK,
   FIFFB_PROCESSING_HISTORY]

/-- Lines 296-308: if the dataset records its source file, open it and
copy the five metadata block kinds forward (`copy_tree` modelled from the
spec as block re-serialization), tracking whether an HPI-result or an
isotrak block was copied. -/
def copy_blocks (fs : String → Option Tree) (info : MeasInfo) : Except Err CopyOut :=
  match info.filename with
  | none => .ok ⟨[], false, false⟩
  | some f =>
    match fs f with
    | none => .error .ioError
    | some tree =>
      .ok (copyKinds.foldl
        (fun acc block =>
          let nodes := dir_tree_find tree block
          ⟨acc.events ++ serForest nodes,
           acc.have_hpi_result || (block == FIFFB_HPI_RESULT && nodes.length > 0),
           acc.have_isotrak || (block == FIFFB_ISOTRAK && nodes.length > 0)⟩)
        ⟨[], false, false⟩)

/-- Modelled from the spec: the `write_projections` collaborator (§6,
`mne/fiff/proj.py` not among the verified sources) — emits one projection
block with opaque item payloads. -/
def write_proj (projs : List Int) : List WTag :=
  start_block FIFFB_PROJ :: (projs.map (write_int FIFF_PROJ_ITEM) ++ [end_block FIFFB_PROJ])

/-- Modelled from the spec: the `write_compensation` collaborator (§6,
`mne/fiff/ctf.py` not among the verified sources). -/
def write_ctf_comp (comps : Option (List Int)) : List WTag :=
  start_block FIFFB_MNE_CTF_COMP ::
    ((comps.getD []).map (write_int FIFF_CTF_COMP_DATA) ++ [end_block FIFFB_MNE_CTF_COMP])

/-- Lines 377-379: `decal = np.zeros((nchan, nchan))`,
`decal[k, k] = 1.0 / cal[k]`. -/
def mkDecal (info : MeasInfo) : Mat :=
  npDiag ((List.range info.nchan.toNat).map (fun k => 1 / (info.chs.getD k chZero).cal))

/-- Lines 318-324: coordinate transforms written only when no HPI-result
block was copied forward. -/
def coord_trans_step (f32 : Rat → Rat) (info : MeasInfo) (have_hpi_result : Bool) :
    Except Err (List WTag) :=
  if have_hpi_result then .ok []
  else do
    let e1 ← match info.dev_head_t with
      | some t => do let tg ← write_coord_trans f32 t; pure [tg]
      | none => pure ([] : List WTag)
    let e2 ← match info.ctf_head_t with
      | some t => do let tg ← write_coord_trans f32 t; pure [tg]
      | none => pure ([] : List WTag)
    pure (e1 ++ e2)

/-- Outcome of `Evoked.save`: the emitted tag stream (prefix up to the
failure point when an error is raised), the dataset as left in memory
(line 329 mutates channel scan numbers in place), and the error, if
any. -/
structure SaveOut where
  events : List WTag
  dataset : Evoked
  err : Option Err
deriving Repr

/-- `Evoked.save` (lines 273-390).  `fs` models the filesystem that
`fiff_open` reads the carry-over source from; `f32` is the float32 wire
re-encoding.  `self.data` is a single matrix here: the source wraps a
non-list into `[self.data]` and runs the evoked-block loop once. -/
def Evoked.save (f32 : Rat → Rat) (fs : String → Option Tree) (self : Evoked) : SaveOut :=
  let hdr := start_file_tags
  let measHdr := [start_block FIFFB_MEAS, write_id FIFF_BLOCK_ID]
    ++ (match self.info.meas_id with
        | some _ => [write_id FIFF_PARENT_BLOCK_ID]
        | none => [])
    ++ [start_block FIFFB_MEAS_INFO]
  match copy_blocks fs self.info with
  | .error e => ⟨hdr ++ measHdr, self, some e⟩
  | .ok cpy =>
    let general := [write_float f32 FIFF_SFREQ self.info.sfreq,
                    write_float f32 FIFF_HIGHPASS self.info.highpass,
                    write_float f32 FIFF_LOWPASS self.info.lowpass,
                    write_int FIFF_NCHAN self.info.nchan]
      ++ (match self.info.meas_date with
          | some d => [write_int FIFF_MEAS_DATE d]
          | none => [])
    match coord_trans_step f32 self.info cpy.have_hpi_result with
    | .error e => ⟨hdr ++ measHdr ++ cpy.events ++ general, self, some e⟩
    | .ok ctEvs =>
      let nchanN := self.info.nchan.toNat
      let chans := (self.info.chs.take nchanN).mapIdx
        (fun k ch => write_ch_info f32 { ch with scanno := (k : Int) })
      let chs' := self.info.chs.mapIdx
        (fun k ch => if k < nchanN then { ch with scanno := (k : Int) } else ch)
      let self' : Evoked := { self with info := { self.info with chs := chs' } }
      if self.info.chs.length < nchanN then
        ⟨hdr ++ measHdr ++ cpy.events ++ general ++ ctEvs ++ chans, self', some .indexError⟩
      else
        let digEvs := match self.info.dig with
          | some dig =>
            if cpy.have_isotrak then []
            else start_block FIFFB_ISOTRAK ::
              (dig.map (write_dig_point f32) ++ [end_block FIFFB_ISOTRAK])
          | none => []
        let projEvs := write_proj self.info.projs
        let compEvs := write_ctf_comp self.info.comps
        let badsEvs := if self.info.bads.length > 0 then
            [start_block FIFFB_MNE_BAD_CHANNELS,
             write_name_list FIFF_MNE_CH_NAME_LIST self.info.bads,
             end_block FIFFB_MNE_BAD_CHANNELS]
          else []
        let evokedHdr := [end_block FIFFB_MEAS_INFO, start_block FIFFB_PROCESSED_DATA,
                          start_block FIFFB_EVOKED]
          ++ (if self.comment.length > 0 then [write_string FIFF_COMMENT self.comment] else [])
          ++ [write_int FIFF_FIRST_SAMPLE self.first, write_int FIFF_LAST_SAMPLE self.last,
              start_block FIFFB_ASPECT, write_int FIFF_ASPECT_KIND self.aspect_kind,
              write_int FIFF_NAVE self.nave]
        let pre := hdr ++ measHdr ++ cpy.events ++ general ++ ctEvs ++ chans ++ digEvs
          ++ projEvs ++ compEvs ++ badsEvs ++ evokedHdr
        if self.info.nchan < 0 then ⟨pre, self', some .negDims⟩ else
        match npDot (mkDecal self.info) self.data with
        | none => ⟨pre, self', some .dotShapeMismatch⟩
        | some mat =>
          ⟨pre ++ [write_float_matrix f32 FIFF_EPOCH mat, end_block FIFFB_ASPECT,
                   end_block FIFFB_EVOKED, end_block FIFFB_PROCESSED_DATA,
                   end_block FIFFB_MEAS, end_file_tag],
           self', none⟩

/-- `write_evoked` (line 422). -/
def write_evoked (f32 : Rat → Rat) (fs : String → Option Tree) (evoked : Evoked) : SaveOut :=
  evoked.save f32 fs

/-! ### Tree construction from a tag stream (`fiff_open`) -/

/-- One open block during parsing. -/
structure Frame where
  block : Int
  dir : List DirEntry
  kids : List Tree
deriving Repr

def Frame.close (f : Frame) : Tree := .node f.block f.dir f.kids

def Frame.addChild (f : Frame) (t : Tree) : Frame := { f with kids := f.kids ++ [t] }

def Frame.addEntry (f : Frame) (e : DirEntry) : Frame := { f with dir := f.dir ++ [e] }

/-- Effect of one tag on the parser state: a block-start tag pushes a
fresh frame, a block-end tag closes the innermost open block into its
parent, and any other tag lands in the directory of the innermost open
block. -/
def goStartFrame (tg : WTag) (cur : Frame) (stack : List Frame) : Frame × List Frame :=
  match tg.data with
  | .intData kb => (⟨kb, [], []⟩, cur :: stack)
  | _ => (cur.addEntry ⟨tg.kind, tg.data⟩, stack)

/-- Closing the innermost open block into its parent; a block end with no
open parent is ignored. -/
def goEndFrame (cur : Frame) (stack : List Frame) : Frame × List Frame :=
  match stack with
  | parent :: stack' => (parent.addChild cur.close, stack')
  | [] => (cur, [])

def goStep (tg : WTag) (cur : Frame) (stack : List Frame) : Frame × List Frame :=
  if tg.kind = FIFF_BLOCK_START then goStartFrame tg cur stack
  else if tg.kind = FIFF_BLOCK_END then goEndFrame cur stack
  else (cur.addEntry ⟨tg.kind, tg.data⟩, stack)

/-- Stack-driven block-tree construction over the tag stream; frames
still open when the stream ends are closed into their parents. -/
def goTags : List WTag → Frame → List Frame → Tree
  | [], cur, [] => cur.close
  | [], cur, parent :: stack => goTags [] (parent.addChild cur.close) stack
  | tg :: rest, cur, stack => goTags rest (goStep tg cur stack).1 (goStep tg cur stack).2
termination_by tags _ stack => (tags.length, stack.length)

/-- Modelled from the spec: `fiff_open`'s directory-tree construction
(`mne/fiff/open.py` and `tree.py`, not among the verified sources): block
start and end tags open and close nested blocks, every other tag lands in
the directory of the innermost open block. -/
def makeTree (tags : List WTag) : Tree := goTags tags ⟨FIFFB_ROOT, [], []⟩ []

/-! ### Measurement-info parsing -/

/-- Scan state of the measurement-info directory pass. -/
structure MIAcc where
  sfreq : Option Rat
  nchan : Option Int
  highpass : Option Rat
  lowpass : Option Rat
  meas_date : Option Int
  chs : List ChInfo
deriving Repr

/-- One directory entry of the measurement-info block. -/
def mi_step (s : MIAcc) (e : DirEntry) : MIAcc :=
  if e.kind = FIFF_SFREQ then
    match e.data with | .floatData q => { s with sfreq := some q } | _ => s
  else if e.kind = FIFF_HIGHPASS then
    match e.data with | .floatData q => { s with highpass := some q } | _ => s
  else if e.kind = FIFF_LOWPASS then
    match e.data with | .floatData q => { s with lowpass := some q } | _ => s
  else if e.kind = FIFF_NCHAN then
    match e.data with | .intData n => { s with nchan := some n } | _ => s
  else if e.kind = FIFF_MEAS_DATE then
    match e.data with | .intData n => { s with meas_date := some n } | _ => s
  else if e.kind = FIFF_CH_INFO then
    match e.data with | .chData c => { s with chs := s.chs ++ [c] } | _ => s
  else s

/-- Modelled from the spec: the `parse_measurement_info` collaborator
(§6, `mne/fiff/meas_info.py` not among the verified sources).  Locates
the measurement block and its measurement-info block and recovers the
fields the evoked core consumes downstream (`sfreq`, `nchan`, `chs`, the
filter band and date); the remaining fields keep neutral defaults.
Returns the info and the measurement subtree. -/
def read_meas_info (tree : Tree) : Except Err (MeasInfo × Tree) :=
  match dir_tree_find tree FIFFB_MEAS with
  | [] => .error .noMeas
  | meas :: _ =>
    match dir_tree_find meas FIFFB_MEAS_INFO with
    | [] => .error .noMeasInfo
    | mi :: _ =>
      let s := mi.directory.foldl mi_step ⟨none, none, none, none, none, []⟩
      match s.sfreq, s.nchan with
      | some sf, some nc =>
        .ok ({ sfreq := sf, highpass := s.highpass.getD 0, lowpass := s.lowpass.getD 0,
               nchan := nc, chs := s.chs, meas_date := s.meas_date, meas_id := none,
               dev_head_t := none, ctf_head_t := none, dig := none, projs := [],
               comps := none, bads := [], filename := none }, meas)
      | _, _ => .error .infoIncomplete

/-! ### The reader (`Evoked.__init__`, lines 50-271) -/

/-- Scan state over the evoked block's directory (lines 136-163).
`first` and `last` start out unassigned: using them while still absent is
the `NameError` of line 186. -/
structure EvScan where
  nchan : Int
  sfreq : Rat
  chs : List ChInfo
  comment : Option String
  first : Option Int
  last : Option Int
deriving Repr

/-- One directory entry of the evoked block (the `elif` chain of lines
145-163).  A recognized kind whose payload has the wrong dynamic type is
a model-level `typeError` (the source would fail at the first typed use
of the value). -/
def ev_scan_step (s : EvScan) (e : DirEntry) : Except Err EvScan :=
  if e.kind = FIFF_COMMENT then
    match e.data with
    | .stringData c => .ok { s with comment := some c } | _ => .error .typeError
  else if e.kind = FIFF_FIRST_SAMPLE then
    match e.data with
    | .intData n => .ok { s with first := some n } | _ => .error .typeError
  else if e.kind = FIFF_LAST_SAMPLE then
    match e.data with
    | .intData n => .ok { s with last := some n } | _ => .error .typeError
  else if e.kind = FIFF_NCHAN then
    match e.data with
    | .intData n => .ok { s with nchan := n } | _ => .error .typeError
  else if e.kind = FIFF_SFREQ then
    match e.data with
    | .floatData q => .ok { s with sfreq := q } | _ => .error .typeError
  else if e.kind = FIFF_CH_INFO then
    match e.data with
    | .chData c => .ok { s with chs := s.chs ++ [c] } | _ => .error .typeError
  else .ok s

/-- Scan state over the aspect block's directory (lines 193-210). -/
structure AspScan where
  comment : Option String
  aspect_kind : Option Int
  nave : Int
  epoch : List TagData
deriving Repr

/-- One directory entry of the aspect block (lines 199-210); epoch tags
are collected untyped, exactly as `epoch.append(tag)` does. -/
def asp_scan_step (s : AspScan) (e : DirEntry) : Except Err AspScan :=
  if e.kind = FIFF_COMMENT then
    match e.data with
    | .stringData c => .ok { s with comment := some c } | _ => .error .typeError
  else if e.kind = FIFF_ASPECT_KIND then
    match e.data with
    | .intData n => .ok { s with aspect_kind := some n } | _ => .error .typeError
  else if e.kind = FIFF_NAVE then
    match e.data with
    | .intData n => .ok { s with nave := n } | _ => .error .typeError
  else if e.kind = FIFF_EPOCH then .ok { s with epoch := s.epoch ++ [e.data] }
  else .ok s

/-- Coerce an epoch tag payload to its matrix (`tag.data` used as a 2-D
array; a non-matrix payload fails at its first shape access). -/
def epochMat : TagData → Except Err Mat
  | .matrixData m => .ok m
  | _ => .error .typeError

/-- Lines 229-231: one step of the old-style epoch concatenation
`all_data = np.r_[all_data, epoch[k].data.T]`. -/
def epochFold (acc : Mat) (t : TagData) : Except Err Mat := do
  let mk ← epochMat t
  match npVstack acc (transposeMat mk) with
  | some r => pure r
  | none => throw Err.rShapeMismatch

/-- Lines 214-231: the epoch-count check and the raw (uncalibrated)
matrix: one epoch tag is taken whole (transposed in the single-channel
column-vector special case of lines 223-225); `nchan` epoch tags are
transposed and stacked row-wise with `np.r_`; any other count is
fatal. -/
def rawAllData (nchan : Int) (epoch : List TagData) : Except Err Mat := do
  let nepoch := epoch.length
  if nepoch ≠ 1 ∧ (nepoch : Int) ≠ nchan then throw .badNepoch
  else if nepoch = 1 then do
    let m ← epochMat (epoch.getD 0 .voidData)
    pure (if ncols m = 1 ∧ nchan = 1 then transposeMat m else m)
  else do
    let m0 ← epochMat (epoch.getD 0 .voidData)
    (epoch.drop 1).foldlM epochFold (transposeMat m0)

/-- Lines 214-236: reassemble the raw data matrix from the epoch tags
and check the reconstructed column count against `nsamp` (line 233). -/
def buildAllData (nchan : Int) (epoch : List TagData) (nsamp : Int) : Except Err Mat := do
  let all_data ← rawAllData nchan epoch
  if (ncols all_data : Int) ≠ nsamp then throw .badNsamp
  else pure all_data

/-- Indices at which `p` holds (`np.where(cond)[0]`). -/
def whereIdx (p : Rat → Bool) (l : List Rat) : List Nat :=
  (List.range l.length).filter (fun i => p (l.getD i 0))

/-- Lines 247-256: the slice bounds of the baseline interval.  `imin` is
the first index with `times >= bmin` and `imax` one past the last index
with `times <= bmax` (an empty `np.where` result makes the `[0]`/`[-1]`
indexing an `IndexError`). -/
def baselineBounds (bmin bmax : Option Rat) (times : List Rat) : Except Err (Nat × Nat) := do
  let imin ← match bmin with
    | none => pure 0
    | some b =>
      match (whereIdx (fun t => decide (b ≤ t)) times).head? with
      | some i => pure i
      | none => throw Err.whereEmpty
  let imax ← match bmax with
    | none => pure times.length
    | some b =>
      match (whereIdx (fun t => decide (t ≤ b)) times).getLast? with
      | some i => pure (i + 1)
      | none => throw Err.whereEmpty
  pure (imin, imax)

/-- Line 257: subtract the per-channel mean of columns `[imin, imax)`
from each whole row. -/
def correctRows (imin imax : Nat) (d : Mat) : Mat :=
  d.map (fun row => row.map (fun x => x - listMean ((row.drop imin).take (imax - imin))))

/-- Lines 244-259: optional baseline correction. -/
def applyBaseline (baseline : Option (Option Rat × Option Rat)) (times : List Rat)
    (all_data : Mat) : Except Err Mat :=
  match baseline with
  | none => .ok all_data
  | some (bmin, bmax) => do
    let ii ← baselineBounds bmin bmax times
    pure (correctRows ii.1 ii.2 all_data)

/-- Lines 214-242 given the scanned fields: epoch reassembly
(`buildAllData`), per-channel calibration by
`np.dot(np.diag(cals), all_data)` (an `IndexError` when the channel list
is shorter than `nchan`), and the time axis
`np.arange(first, last + 1) / info.sfreq`. -/
def finishAssembly (info : MeasInfo) (comment : String)
    (nave aspect_kind first last : Int) (epoch : List TagData) : Except Err Evoked := do
  let all_data ← buildAllData info.nchan epoch (last - first + 1)
  if info.nchan.toNat > info.chs.length then throw Err.indexError
  else do
    let all_data ← (match npDot (npDiag ((List.range info.nchan.toNat).map
        (fun k => (info.chs.getD k chZero).cal))) all_data with
      | some m => pure m
      | none => throw Err.dotShapeMismatch : Except Err Mat)
    pure { info := info, nave := nave, aspect_kind := aspect_kind, first := first,
           last := last, comment := comment,
           times := (List.range (last + 1 - first).toNat).map
             (fun i : Nat => ((first + (i : Int) : Int) : Rat) / info.sfreq),
           data := all_data }

/-- Reading a value that the scan may never have assigned: an unbound
identifier (`first`, `last` at line 186; `aspect_kind` at line 212)
raises `NameError`. -/
def requireVal {α : Type _} : Option α → Except Err α
  | some v => pure v
  | none => throw Err.nameError

/-- Lines 136-242: extract fields from the chosen evoked and aspect
blocks and assemble the dataset up to and including calibration and the
time axis (the `EvokedAssembler` of the spec, before the optional
baseline step): local channel/rate overrides, sample range, aspect scan,
then `finishAssembly`.  The comment passed on is the aspect comment if
present (line 201), else the evoked comment, else `"No comment"`
(line 165). -/
def assembleCore (info0 : MeasInfo) (my_evoked my_aspect : Tree) : Except Err Evoked := do
  let s ← my_evoked.directory.foldlM ev_scan_step ⟨0, -1, [], none, none, none⟩
  let info ←
    if s.nchan > 0 then
      if (s.chs.length : Int) ≠ s.nchan then throw Err.localChCount
      else pure ({ info0 with
                   chs := s.chs
                   nchan := s.nchan
                   sfreq := if s.sfreq > 0 then s.sfreq else info0.sfreq } : MeasInfo)
    else pure info0
  let first ← requireVal s.first
  let last ← requireVal s.last
  let a ← my_aspect.directory.foldlM asp_scan_step ⟨none, none, 1, []⟩
  let aspect_kind ← requireVal a.aspect_kind
  finishAssembly info (a.comment.getD (s.comment.getD "No comment")) a.nave
    aspect_kind first last a.epoch

/-- Lines 136-269: assembly followed by the optional baseline correction
of lines 244-259 (factored as the final transformation of the data
matrix; the composition equals the inline order of the source, which
corrects `all_data` immediately before the attribute assignment). -/
def assembleUnit (info0 : MeasInfo) (my_evoked my_aspect : Tree)
    (baseline : Option (Option Rat × Option Rat)) : Except Err Evoked := do
  let E ← assembleCore info0 my_evoked my_aspect
  let d ← applyBaseline baseline E.times E.data
  pure { E with data := d }

/-- One entry of `sets` (lines 92-94): the aspect blocks of one evoked
block and its `naspect` count. -/
structure SetRec where
  aspects : List Tree
  naspect : Nat
deriving Repr

/-- Lines 86-109: identify the aspects of each evoked block.  `is_smsh`
is a 2-D zeros/ones array whose contents are never read afterwards; only
its column count matters, through the `np.r_` shape constraint (rows of
differing length raise `ValueError`).  A block with shielded (`SMSH`)
aspects overwrites its count with a `[count, saspects]` pair and then
passes that list to `np.ones` as a dtype — a `TypeError` (the
`XXX : potential bug` comment of line 107). -/
def identifySets : List Tree → Option Nat → Nat → List SetRec →
    Except Err (List SetRec × Nat)
  | [], _, naspect, sets => .ok (sets, naspect)
  | e :: rest, is_smsh, naspect, sets =>
    let aspects_k := dir_tree_find e FIFFB_ASPECT
    let n := aspects_k.length
    let step : Except Err (Option Nat × Nat) :=
      if n > 0 then
        match is_smsh with
        | none => .ok (some n, naspect + n)
        | some c => if c ≠ n then .error .rShapeMismatch else .ok (some c, naspect + n)
      else .ok (is_smsh, naspect)
    match step with
    | .error er => .error er
    | .ok (is_smsh', naspect') =>
      let saspects := dir_tree_find e FIFFB_SMSH_ASPECT
      if saspects.length > 0 then .error .typeError
      else identifySets rest is_smsh' naspect' (sets ++ [⟨aspects_k, n⟩])

/-- Lines 118-134: locate the `setno`-th unit by a flat counter `p`
running over each evoked block's `naspect` aspects in order; completing
the enumeration without reaching `setno` is the for-else consistency
error of line 134. -/
def selectUnit : List (Tree × SetRec) → Int → Int → Except Err (Tree × Tree)
  | [], _, _ => .error .notFound
  | (evk, st) :: rest, setno, p =>
    if p ≤ setno ∧ setno < p + (st.naspect : Int) then
      .ok (evk, st.aspects.getD (setno - p).toNat (.node 0 [] []))
    else selectUnit rest setno (p + st.naspect)

/-- `Evoked.__init__` after measurement-info parsing (lines 65-271):
selector sign check, processed/evoked block location, aspect
identification, range check, unit selection and assembly. -/
def readEvokedFrom (meas : Tree) (info : MeasInfo) (setno : Int)
    (baseline : Option (Option Rat × Option Rat)) : Except Err Evoked := do
  if setno < 0 then throw Err.selectorNegative
  else
    let processed := dir_tree_find meas FIFFB_PROCESSED_DATA
    if processed.length = 0 then throw Err.noProcessed
    else
      let evoked_node := dir_tree_find meas FIFFB_EVOKED
      if evoked_node.length = 0 then throw Err.noEvoked
      else do
        let r ← identifySets evoked_node none 0 []
        if setno ≥ (r.2 : Int) ∨ setno < 0 then throw Err.selectorOutOfRange
        else do
          let u ← selectUnit (evoked_node.zip r.1) setno 0
          assembleUnit info u.1 u.2 baseline

/-- `read_evoked` (line 393): open the file (tag stream), parse the
measurement info, record the source filename on the info, run selection
and assembly. -/
def read_evoked (fname : String) (file : List WTag) (setno : Int := 0)
    (baseline : Option (Option Rat × Option Rat) := none) : Except Err Evoked := do
  let tree := makeTree file
  let im ← read_meas_info tree
  let info := { im.1 with filename := some fname }
  readEvokedFrom im.2 info setno baseline

/-! ### Expected artifacts of a fresh save: the parsed tree, the parsed
measurement info and the read-back dataset, used by the round-trip
development. -/

/-- The directory entry recorded for one tag (kind plus the payload that
`read_tag` recovers at the entry's offset). -/
def entryOf (tg : WTag) : DirEntry := ⟨tg.kind, tg.data⟩

/-- The de-calibrated matrix `np.dot(decal, data)` of the writer, in
diagonal-multiply normal form. -/
def decalRaw (D : Evoked) : Mat :=
  List.zipWith (fun c row => row.map (fun x => c * x))
    ((List.range D.info.nchan.toNat).map (fun k => 1 / (D.info.chs.getD k chZero).cal))
    D.data

/-- The tag stream of a successful fresh save (no carried-over source
file, no coordinate transforms), segment by segment in emission order. -/
def eventsOf (f32 : Rat → Rat) (D : Evoked) : List WTag :=
  start_file_tags
  ++ [start_block FIFFB_MEAS, write_id FIFF_BLOCK_ID]
  ++ (match D.info.meas_id with
      | some _ => [write_id FIFF_PARENT_BLOCK_ID]
      | none => [])
  ++ [start_block FIFFB_MEAS_INFO,
      write_float f32 FIFF_SFREQ D.info.sfreq,
      write_float f32 FIFF_HIGHPASS D.info.highpass,
      write_float f32 FIFF_LOWPASS D.info.lowpass,
      write_int FIFF_NCHAN D.info.nchan]
  ++ (match D.info.meas_date with
      | some d => [write_int FIFF_MEAS_DATE d]
      | none => [])
  ++ (D.info.chs.take D.info.nchan.toNat).mapIdx
      (fun k ch => write_ch_info f32 { ch with scanno := (k : Int) })
  ++ (match D.info.dig with
      | some dig => start_block FIFFB_ISOTRAK ::
          (dig.map (write_dig_point f32) ++ [end_block FIFFB_ISOTRAK])
      | none => [])
  ++ (start_block FIFFB_PROJ ::
      (D.info.projs.map (write_int FIFF_PROJ_ITEM) ++ [end_block FIFFB_PROJ]))
  ++ (start_block FIFFB_MNE_CTF_COMP ::
      ((D.info.comps.getD []).map (write_int FIFF_CTF_COMP_DATA)
        ++ [end_block FIFFB_MNE_CTF_COMP]))
  ++ (if D.info.bads.length > 0 then
        [start_block FIFFB_MNE_BAD_CHANNELS,
         write_name_list FIFF_MNE_CH_NAME_LIST D.info.bads,
         end_block FIFFB_MNE_BAD_CHANNELS]
      else [])
  ++ [end_block FIFFB_MEAS_INFO, start_block FIFFB_PROCESSED_DATA,
      start_block FIFFB_EVOKED]
  ++ (if D.comment.length > 0 then [write_string FIFF_COMMENT D.comment] else [])
  ++ [write_int FIFF_FIRST_SAMPLE D.first, write_int FIFF_LAST_SAMPLE D.last,
      start_block FIFFB_ASPECT, write_int FIFF_ASPECT_KIND D.aspect_kind,
      write_int FIFF_NAVE D.nave,
      write_float_matrix f32 FIFF_EPOCH (decalRaw D),
      end_block FIFFB_ASPECT, end_block FIFFB_EVOKED,
      end_block FIFFB_PROCESSED_DATA, end_block FIFFB_MEAS, end_file_tag]

/-- The measurement-info block of a freshly saved file, as the parser
recovers it. -/
def miTreeOf (f32 : Rat → Rat) (info : MeasInfo) : Tree :=
  .node FIFFB_MEAS_INFO
    (([write_float f32 FIFF_SFREQ info.sfreq,
       write_float f32 FIFF_HIGHPASS info.highpass,
       write_float f32 FIFF_LOWPASS info.lowpass,
       write_int FIFF_NCHAN info.nchan]
      ++ (match info.meas_date with
          | some d => [write_int FIFF_MEAS_DATE d]
          | none => [])
      ++ (info.chs.take info.nchan.toNat).mapIdx
          (fun k ch => write_ch_info f32 { ch with scanno := (k : Int) })).map entryOf)
    ((match info.dig with
      | some dig => [Tree.node FIFFB_ISOTRAK ((dig.map (write_dig_point f32)).map entryOf) []]
      | none => [])
     ++ [Tree.node FIFFB_PROJ ((info.projs.map (write_int FIFF_PROJ_ITEM)).map entryOf) [],
         Tree.node FIFFB_MNE_CTF_COMP
           (((info.comps.getD []).map (write_int FIFF_CTF_COMP_DATA)).map entryOf) []]
     ++ (if info.bads.length > 0 then
          [Tree.node FIFFB_MNE_BAD_CHANNELS
            [entryOf (write_name_list FIFF_MNE_CH_NAME_LIST info.bads)] []]
         else []))

/-- The single aspect block of a freshly saved dataset, as parsed. -/
def aspTreeOf (f32 : Rat → Rat) (D : Evoked) : Tree :=
  .node FIFFB_ASPECT
    ([write_int FIFF_ASPECT_KIND D.aspect_kind,
      write_int FIFF_NAVE D.nave,
      write_float_matrix f32 FIFF_EPOCH (decalRaw D)].map entryOf) []

/-- The evoked block of a freshly saved dataset, as the parser recovers
it: optional comment, sample range, one aspect holding the de-calibrated
f32-encoded epoch matrix. -/
def evokedTreeOf (f32 : Rat → Rat) (D : Evoked) : Tree :=
  .node FIFFB_EVOKED
    (((if D.comment.length > 0 then [write_string FIFF_COMMENT D.comment] else [])
      ++ [write_int FIFF_FIRST_SAMPLE D.first,
          write_int FIFF_LAST_SAMPLE D.last]).map entryOf)
    [aspTreeOf f32 D]

/-- The measurement block of a freshly saved dataset, as parsed. -/
def measTreeOf (f32 : Rat → Rat) (D : Evoked) : Tree :=
  .node FIFFB_MEAS
    (([write_id FIFF_BLOCK_ID]
      ++ (match D.info.meas_id with
          | some _ => [write_id FIFF_PARENT_BLOCK_ID]
          | none => [])).map entryOf)
    [miTreeOf f32 D.info,
     .node FIFFB_PROCESSED_DATA [] [evokedTreeOf f32 D]]

/-- The whole parsed tree of a freshly saved file: header and closing
sentinel tags land in the root directory, the measurement block is the
only child. -/
def parsedRootOf (f32 : Rat → Rat) (D : Evoked) : Tree :=
  .node FIFFB_ROOT (start_file_tags.map entryOf ++ [entryOf end_file_tag])
    [measTreeOf f32 D]

/-- The measurement info recovered from a freshly saved file. -/
def infoRead (f32 : Rat → Rat) (info : MeasInfo) : MeasInfo :=
  { sfreq := f32 info.sfreq, highpass := f32 info.highpass, lowpass := f32 info.lowpass,
    nchan := i32 info.nchan,
    chs := (info.chs.take info.nchan.toNat).mapIdx
      (fun k ch => chWire f32 { ch with scanno := (k : Int) }),
    meas_date := info.meas_date.map i32, meas_id := none,
    dev_head_t := none, ctf_head_t := none, dig := none, projs := [],
    comps := none, bads := [], filename := none }

/-- The dataset that reading a freshly saved `D` back yields. -/
def EOut (f32 : Rat → Rat) (fname : String) (D : Evoked) : Evoked :=
  { info := { infoRead f32 D.info with filename := some fname },
    nave := D.nave, aspect_kind := D.aspect_kind, first := D.first, last := D.last,
    comment := if D.comment.length > 0 then D.comment else "No comment",
    times := (List.range (D.last + 1 - D.first).toNat).map
      (fun i : Nat => ((D.first + (i : Int) : Int) : Rat) / f32 D.info.sfreq),
    data := List.zipWith (fun p row => row.map (fun x => f32 p.cal * f32 (1 / p.cal * x)))
      D.info.chs D.data }

/-- The comment tags of a tag stream. -/
def commentTags (l : List WTag) : List WTag :=
  l.filter (fun tg => tg.kind == FIFF_COMMENT)

/-- A dataset the writer can encode into a fresh file and the reader can
reassemble: no carried-over source file, no coordinate transforms,
consistent channel/row counts, rectangular data whose width matches the
sample range, nonzero calibrations, integer fields within the 32-bit wire
range, and a time axis consistent with the sample range. -/
def ValidEvoked (D : Evoked) : Prop :=
  D.info.filename = none
  ∧ D.info.dev_head_t = none
  ∧ D.info.ctf_head_t = none
  ∧ 0 < D.info.nchan
  ∧ D.info.nchan < 2 ^ 31
  ∧ (D.info.chs.length : Int) = D.info.nchan
  ∧ (D.data.length : Int) = D.info.nchan
  ∧ (∀ r ∈ D.data, r.length = ncols D.data)
  ∧ (∀ ch ∈ D.info.chs, ch.cal ≠ 0)
  ∧ (ncols D.data : Int) = D.last - D.first + 1
  ∧ -(2 ^ 31) ≤ D.first ∧ D.first < 2 ^ 31
  ∧ -(2 ^ 31) ≤ D.last ∧ D.last < 2 ^ 31
  ∧ -(2 ^ 31) ≤ D.nave ∧ D.nave < 2 ^ 31
  ∧ -(2 ^ 31) ≤ D.aspect_kind ∧ D.aspect_kind < 2 ^ 31
  ∧ D.times = (List.range (D.last + 1 - D.first).toNat).map
      (fun i : Nat => ((D.first + (i : Int) : Int) : Rat) / D.info.sfreq)

/-! ### Concrete fixtures used by witnesses and counterexamples -/

/-- A one-channel measurement info with unit calibration. -/
def infoW : MeasInfo :=
  { sfreq := 1, highpass := 0, lowpass := 40, nchan := 1,
    chs := [⟨0, 1, 2, 1, 1, 0, [], 0, 0, "a"⟩],
    meas_date := none, meas_id := none, dev_head_t := none, ctf_head_t := none,
    dig := none, projs := [], comps := none, bads := [], filename := none }

/-- An evoked block carrying samples 0..2. -/
def evkW : Tree := .node FIFFB_EVOKED
  [⟨FIFF_FIRST_SAMPLE, .intData 0⟩, ⟨FIFF_LAST_SAMPLE, .intData 2⟩] []

/-- An aspect block with one `1 x 3` epoch. -/
def aspW : Tree := .node FIFFB_ASPECT
  [⟨FIFF_ASPECT_KIND, .intData 100⟩, ⟨FIFF_NAVE, .intData 1⟩,
   ⟨FIFF_EPOCH, .matrixData [[1, 2, 3]]⟩] []

/-- The dataset assembled from `infoW`, `evkW`, `aspW` with no baseline. -/
def E0W : Evoked :=
  { info := infoW, nave := 1, aspect_kind := 100, first := 0, last := 2,
    comment := "No comment", times := [0, 1, 2], data := [[1, 2, 3]] }

/-- A measurement subtree with one evoked block holding one aspect. -/
def measW : Tree := .node FIFFB_MEAS []
  [.node FIFFB_PROCESSED_DATA [] [.node FIFFB_EVOKED
    [⟨FIFF_FIRST_SAMPLE, .intData 0⟩, ⟨FIFF_LAST_SAMPLE, .intData 2⟩] [aspW]]]

/-- A measurement subtree whose single evoked block has one ordinary
aspect and one shielded (`SMSH`) aspect. -/
def measSmsh : Tree := .node FIFFB_MEAS []
  [.node FIFFB_PROCESSED_DATA [] [.node FIFFB_EVOKED
    [⟨FIFF_FIRST_SAMPLE, .intData 0⟩, ⟨FIFF_LAST_SAMPLE, .intData 2⟩]
    [aspW, .node FIFFB_SMSH_ASPECT
      [⟨FIFF_ASPECT_KIND, .intData 100⟩, ⟨FIFF_NAVE, .intData 1⟩,
       ⟨FIFF_EPOCH, .matrixData [[4, 5, 6]]⟩] []]]]

/-- A measurement subtree with two evoked blocks holding one and two
ordinary aspects respectively (unequal per-block aspect counts). -/
def measUneven : Tree := .node FIFFB_MEAS []
  [.node FIFFB_PROCESSED_DATA [] [
    .node FIFFB_EVOKED
      [⟨FIFF_FIRST_SAMPLE, .intData 0⟩, ⟨FIFF_LAST_SAMPLE, .intData 2⟩] [aspW],
    .node FIFFB_EVOKED
      [⟨FIFF_FIRST_SAMPLE, .intData 0⟩, ⟨FIFF_LAST_SAMPLE, .intData 2⟩]
      [aspW, .node FIFFB_ASPECT
        [⟨FIFF_ASPECT_KIND, .intData 100⟩, ⟨FIFF_NAVE, .intData 1⟩,
         ⟨FIFF_EPOCH, .matrixData [[4, 5, 6]]⟩] []]]]

/-- The in-place channel renumbering of line 329: channel `k` of the
first `nchan` channels gets scan number `k`. -/
def renumberChs (info : MeasInfo) : List ChInfo :=
  info.chs.mapIdx
    (fun k ch => if k < info.nchan.toNat then { ch with scanno := (k : Int) } else ch)

/-- A dataset whose declared channel count exceeds its channel list: a
writer input that cannot be encoded. -/
def E8 : Evoked :=
  { info := { infoW with chs := [] }, nave := 1, aspect_kind := 100,
    first := 0, last := 2, comment := "c", times := [0, 1, 2],
    data := [[1, 2, 3]] }

/-- A copy of `E0W` whose only channel carries scan number 5 rather
than 0. -/
def E9 : Evoked :=
  { E0W with info := { infoW with chs := [⟨5, 1, 2, 1, 1, 0, [], 0, 0, "a"⟩] } }

/-- A copy of `E0W` with an empty comment string. -/
def E10 : Evoked := { E0W with comment := "" }

/-! ### End of the embedding; theorems follow. -/

theorem i32_eq_self {n : Int} (h1 : -(2 ^ 31) ≤ n) (h2 : n < 2 ^ 31) :
    i32 n = n := by
  unfold i32
  rw [Int.emod_eq_of_lt (by omega) (by omega)]
  omega

/-! ### Matrix lemmas -/

theorem range_map_getD {α β : Type _} (l : List α) (d : α) (f : α → β) :
    (List.range l.length).map (fun j => f (l.getD j d)) = l.map f := by
  induction l with
  | nil => simp
  | cons x xs ih =>
    rw [List.length_cons, List.range_succ_eq_map]
    simp only [List.map_cons, List.map_map, List.getD_cons_zero]
    refine congrArg₂ _ rfl (Eq.trans (List.map_congr_left (fun j _ => ?_)) ih)
    simp [Function.comp, List.getD_cons_succ]

theorem dotp_cons (x y : Rat) (a b : List Rat) :
    dotp (x :: a) (y :: b) = x * y + dotp a b := by
  simp [dotp]

theorem dotp_replicate_zero (n : Nat) (b : List Rat) :
    dotp (List.replicate n 0) b = 0 := by
  induction n generalizing b with
  | zero => simp [dotp]
  | succ k ih =>
    cases b with
    | nil => simp [dotp]
    | cons y b' => rw [List.replicate_succ, dotp_cons, ih]; ring

theorem ncols_npDiag (cs : List Rat) : ncols (npDiag cs) = cs.length := by
  cases cs with
  | nil => rfl
  | cons c cs' => simp [npDiag, ncols]

theorem npDiag_length (cs : List Rat) : (npDiag cs).length = cs.length := by
  induction cs with
  | nil => rfl
  | cons c cs' ih => simp [npDiag, ih]

theorem colv_cons (j : Nat) (r : List Rat) (m : Mat) :
    colv j (r :: m) = r.getD j 0 :: colv j m := by
  simp [colv]

theorem ncols_cons (r : List Rat) (m : Mat) : ncols (r :: m) = r.length := rfl

/-- Left multiplication by a diagonal matrix scales the rows. -/
theorem diag_mul_rows (cs : List Rat) (m : Mat) (hm : m.length = cs.length)
    (hrect : ∀ r ∈ m, r.length = ncols m) :
    (npDiag cs).map (fun ra => (List.range (ncols m)).map (fun j => dotp ra (colv j m)))
      = List.zipWith (fun c row => row.map (fun x => c * x)) cs m := by
  induction cs generalizing m with
  | nil =>
    have : m = [] := List.length_eq_zero.mp hm
    subst this; rfl
  | cons c cs' ih =>
    cases m with
    | nil => simp at hm
    | cons r m' =>
      simp only [npDiag, List.map_cons, List.map_map, List.zipWith_cons_cons]
      refine congrArg₂ _ ?_ ?_
      · -- first row: dot with (c :: zeros) picks out c * r[j]
        have h1 : ∀ j, dotp (c :: List.replicate cs'.length 0) (colv j (r :: m'))
            = c * r.getD j 0 := by
          intro j
          rw [colv_cons, dotp_cons, dotp_replicate_zero]; ring
        calc (List.range (ncols (r :: m'))).map
              (fun j => dotp (c :: List.replicate cs'.length 0) (colv j (r :: m')))
            = (List.range r.length).map (fun j => c * r.getD j 0) := by
              rw [ncols_cons]; exact List.map_congr_left (fun j _ => h1 j)
          _ = r.map (fun x => c * x) := range_map_getD r 0 (fun x => c * x)
      · -- remaining rows: dot with (0 :: row) drops the first column
        have h2 : ∀ ra j, dotp (0 :: ra) (colv j (r :: m')) = dotp ra (colv j m') := by
          intro ra j
          rw [colv_cons, dotp_cons]; ring
        have hm' : m'.length = cs'.length := by simpa using hm
        cases m' with
        | nil =>
          have hcs : cs' = [] := List.length_eq_zero.mp (by simpa using hm'.symm)
          subst hcs; rfl
        | cons r2 m'' =>
          have hcols : ncols (r2 :: m'') = ncols (r :: r2 :: m'') := by
            have h := hrect r2 (by simp)
            rw [ncols_cons, ncols_cons]
            rw [ncols_cons] at h
            exact h
          refine Eq.trans (List.map_congr_left (fun ra _ => ?_))
            (ih (r2 :: m'') hm' (fun row hrow => ?_))
          · simp only [Function.comp_apply]
            rw [← hcols]
            exact List.map_congr_left (fun j _ => h2 ra j)
          · exact (hrect row (List.mem_cons_of_mem r hrow)).trans hcols.symm

theorem npDot_diag (cs : List Rat) (m : Mat) (hm : m.length = cs.length)
    (hrect : ∀ r ∈ m, r.length = ncols m) :
    npDot (npDiag cs) m
      = some (List.zipWith (fun c row => row.map (fun x => c * x)) cs m) := by
  unfold npDot
  rw [if_pos (by rw [ncols_npDiag, hm])]
  exact congrArg some (diag_mul_rows cs m hm hrect)

/-! ### Calibration lemmas -/

theorem length_mem_zipWith_scale {κ : Type _} {g : κ → Rat → Rat} {cs : List κ} {m : Mat}
    {r : List Rat} (hr : r ∈ List.zipWith (fun c row => row.map (g c)) cs m) :
    ∃ row ∈ m, r.length = row.length := by
  induction cs generalizing m with
  | nil => simp at hr
  | cons c cs' ih =>
    cases m with
    | nil => simp at hr
    | cons row0 m' =>
      rw [List.zipWith_cons_cons, List.mem_cons] at hr
      rcases hr with h | h
      · exact ⟨row0, by simp, by simp [h]⟩
      · obtain ⟨row, hrow, hlen⟩ := ih h
        exact ⟨row, List.mem_cons_of_mem _ hrow, hlen⟩

theorem zipWith_scale_rect {κ : Type _} {g : κ → Rat → Rat} (cs : List κ) (m : Mat)
    (hrect : ∀ r ∈ m, r.length = ncols m) :
    ∀ r ∈ List.zipWith (fun c row => row.map (g c)) cs m,
      r.length = ncols (List.zipWith (fun c row => row.map (g c)) cs m) := by
  intro r hr
  cases cs with
  | nil => simp at hr
  | cons c cs' =>
    cases m with
    | nil => simp at hr
    | cons row0 m' =>
      obtain ⟨row, hrow, hlen⟩ := length_mem_zipWith_scale hr
      have h0 : ncols (List.zipWith (fun c row => row.map (g c)) (c :: cs') (row0 :: m'))
          = row0.length := by
        simp [ncols]
      rw [h0]
      exact hlen.trans ((hrect row hrow).trans (ncols_cons row0 m'))

/-- Calibrating after de-calibrating (or the reverse) is the identity:
`diag(cal) * diag(1/cal) = I` exactly over the rationals. -/
theorem calib_inv (cs : List Rat) (m : Mat) (h0 : ∀ c ∈ cs, c ≠ 0)
    (hlen : m.length = cs.length) :
    List.zipWith (fun c row => row.map (fun x => c * x)) cs
      (List.zipWith (fun c row => row.map (fun x => 1 / c * x)) cs m) = m := by
  induction cs generalizing m with
  | nil =>
    have : m = [] := List.length_eq_zero.mp hlen
    subst this; rfl
  | cons c cs' ih =>
    cases m with
    | nil => simp at hlen
    | cons row m' =>
      simp only [List.zipWith_cons_cons, List.map_map]
      refine congrArg₂ _ ?_ (ih m' (fun x hx => h0 x (List.mem_cons_of_mem _ hx))
        (by simpa using hlen))
      have hc : c ≠ 0 := h0 c (by simp)
      calc row.map ((fun x => c * x) ∘ fun x => 1 / c * x)
          = row.map id := List.map_congr_left (fun x _ => by
            simp only [Function.comp_apply, id_eq, one_div]
            rw [mul_inv_cancel_left₀ hc])
        _ = row := List.map_id row

/-- De-calibrating after calibrating is also the identity. -/
theorem decal_inv (cs : List Rat) (m : Mat) (h0 : ∀ c ∈ cs, c ≠ 0)
    (hlen : m.length = cs.length) :
    List.zipWith (fun c row => row.map (fun x => 1 / c * x)) cs
      (List.zipWith (fun c row => row.map (fun x => c * x)) cs m) = m := by
  induction cs generalizing m with
  | nil =>
    have : m = [] := List.length_eq_zero.mp hlen
    subst this; rfl
  | cons c cs' ih =>
    cases m with
    | nil => simp at hlen
    | cons row m' =>
      simp only [List.zipWith_cons_cons, List.map_map]
      refine congrArg₂ _ ?_ (ih m' (fun x hx => h0 x (List.mem_cons_of_mem _ hx))
        (by simpa using hlen))
      have hc : c ≠ 0 := h0 c (by simp)
      calc row.map ((fun x => 1 / c * x) ∘ fun x => c * x)
          = row.map id := List.map_congr_left (fun x _ => by
            simp only [Function.comp_apply, id_eq, one_div]
            rw [inv_mul_cancel_left₀ hc])
        _ = row := List.map_id row

/-- Inversion of a successful `np.dot`. -/
theorem npDot_some {a b m' : Mat} (h : npDot a b = some m') :
    ncols a = b.length
    ∧ m' = a.map (fun ra => (List.range (ncols b)).map (fun j => dotp ra (colv j b))) := by
  by_cases hc : ncols a = b.length
  · unfold npDot at h
    rw [if_pos hc] at h
    exact ⟨hc, (Option.some_inj.mp h).symm⟩
  · unfold npDot at h
    rw [if_neg hc] at h
    cases h

theorem npDot_some_rows {a b m' : Mat} (h : npDot a b = some m') :
    m'.length = a.length ∧ ∀ r ∈ m', r.length = ncols b := by
  obtain ⟨-, rfl⟩ := npDot_some h
  refine ⟨by simp, fun r hr => ?_⟩
  obtain ⟨ra, -, rfl⟩ := List.mem_map.mp hr
  simp

theorem npDot_some_ncols {a b m' : Mat} (h : npDot a b = some m') (ha : a ≠ []) :
    ncols m' = ncols b := by
  obtain ⟨-, rfl⟩ := npDot_some h
  cases a with
  | nil => exact absurd rfl ha
  | cons ra a' => simp [ncols]

/-! ### Shape lemmas for the baseline step -/

theorem correctRows_length (imin imax : Nat) (d : Mat) :
    (correctRows imin imax d).length = d.length := by
  simp [correctRows]

theorem correctRows_ncols (imin imax : Nat) (d : Mat) :
    ncols (correctRows imin imax d) = ncols d := by
  cases d <;> simp [correctRows, ncols]

theorem applyBaseline_some_eq (bmin bmax : Option Rat) (times : List Rat) (d : Mat) :
    applyBaseline (some (bmin, bmax)) times d
      = (baselineBounds bmin bmax times).map (fun ii => correctRows ii.1 ii.2 d) := by
  cases hb : baselineBounds bmin bmax times with
  | error e =>
    show (baselineBounds bmin bmax times).bind _ = _
    rw [hb]; rfl
  | ok ii =>
    show (baselineBounds bmin bmax times).bind _ = _
    rw [hb]; rfl

theorem applyBaseline_ok_shape {β} {times : List Rat} {d d' : Mat}
    (h : applyBaseline β times d = .ok d') :
    d'.length = d.length ∧ ncols d' = ncols d := by
  match β with
  | none =>
    cases h
    exact ⟨rfl, rfl⟩
  | some (bmin, bmax) =>
    rw [applyBaseline_some_eq] at h
    cases hb : baselineBounds bmin bmax times with
    | error e => rw [hb] at h; cases h
    | ok ii =>
      rw [hb] at h
      cases h
      exact ⟨correctRows_length .., correctRows_ncols ..⟩

theorem assembleUnit_none (info : MeasInfo) (e a : Tree) :
    assembleUnit info e a none = assembleCore info e a := by
  unfold assembleUnit
  cases h : assembleCore info e a with
  | error er => rfl
  | ok E => rfl

@[simp] theorem exceptBind_ok {α β : Type _} (a : α) (f : α → Except Err β) :
    (Except.ok a : Except Err α) >>= f = f a := rfl

@[simp] theorem exceptBind_error {α β : Type _} (e : Err) (f : α → Except Err β) :
    (Except.error e : Except Err α) >>= f = .error e := rfl

@[simp] theorem exceptThrow {α : Type _} (e : Err) :
    (throw e : Except Err α) = Except.error e := rfl

@[simp] theorem requireVal_some {α : Type _} (v : α) :
    requireVal (some v) = (pure v : Except Err α) := rfl

@[simp] theorem requireVal_none {α : Type _} :
    (requireVal none : Except Err α) = throw Err.nameError := rfl

/-! ### First and last index of a filtered range (`np.where` bounds) -/

theorem filter_range_head_spec (q : Nat → Bool) (n i : Nat)
    (h : ((List.range n).filter q).head? = some i) :
    i < n ∧ q i = true ∧ ∀ j < i, q j = false := by
  induction n with
  | zero => simp at h
  | succ m ih =>
    rw [List.range_succ, List.filter_append] at h
    cases hh : (List.range m).filter q with
    | nil =>
      rw [hh, List.nil_append] at h
      by_cases hqm : q m
      · simp only [List.filter, hqm] at h
        simp at h
        subst h
        refine ⟨Nat.lt_succ_self m, hqm, fun j hj => ?_⟩
        have := (List.filter_eq_nil_iff.mp hh) j (List.mem_range.mpr hj)
        simpa using this
      · simp only [List.filter] at h
        rw [Bool.not_eq_true] at hqm
        rw [hqm] at h
        simp at h
    | cons x xs =>
      rw [hh, List.cons_append] at h
      simp only [List.head?_cons, Option.some_inj] at h
      subst h
      have hx : ((List.range m).filter q).head? = some x := by rw [hh]; rfl
      obtain ⟨h1, h2, h3⟩ := ih hx
      exact ⟨h1.trans (Nat.lt_succ_self m), h2, h3⟩

theorem filter_range_head_exists (q : Nat → Bool) (n j : Nat) (hj : j < n)
    (hq : q j = true) : ∃ i, ((List.range n).filter q).head? = some i := by
  have hmem : j ∈ (List.range n).filter q :=
    List.mem_filter.mpr ⟨List.mem_range.mpr hj, hq⟩
  cases hh : ((List.range n).filter q).head? with
  | some i => exact ⟨i, rfl⟩
  | none =>
    rw [List.head?_eq_none_iff] at hh
    rw [hh] at hmem
    cases hmem

theorem filter_range_getLast_spec (q : Nat → Bool) (n i : Nat)
    (h : ((List.range n).filter q).getLast? = some i) :
    i < n ∧ q i = true ∧ ∀ j, i < j → j < n → q j = false := by
  induction n with
  | zero => simp at h
  | succ m ih =>
    rw [List.range_succ, List.filter_append] at h
    by_cases hqm : q m
    · have hfm : List.filter q [m] = [m] := by simp [hqm]
      rw [hfm, List.getLast?_concat] at h
      simp only [Option.some_inj] at h
      subst h
      exact ⟨Nat.lt_succ_self m, hqm, fun j hij hjm => by omega⟩
    · have hfm : List.filter q [m] = [] := by
        have : q m = false := Bool.not_eq_true _ |>.mp hqm
        simp [List.filter, this]
      rw [hfm, List.append_nil] at h
      obtain ⟨h1, h2, h3⟩ := ih h
      refine ⟨h1.trans (Nat.lt_succ_self m), h2, fun j hij hjm => ?_⟩
      rcases Nat.lt_succ_iff_lt_or_eq.mp hjm with hlt | rfl
      · exact h3 j hij hlt
      · simpa using hqm

theorem filter_range_getLast_exists (q : Nat → Bool) (n j : Nat) (hj : j < n)
    (hq : q j = true) : ∃ i, ((List.range n).filter q).getLast? = some i := by
  have hmem : j ∈ (List.range n).filter q :=
    List.mem_filter.mpr ⟨List.mem_range.mpr hj, hq⟩
  cases hh : ((List.range n).filter q).getLast? with
  | some i => exact ⟨i, rfl⟩
  | none =>
    rw [List.getLast?_eq_none_iff] at hh
    rw [hh] at hmem
    cases hmem

/-! ### Epoch reassembly lemmas -/

theorem ncols_append_left (a b : Mat) (ha : a ≠ []) : ncols (a ++ b) = ncols a := by
  cases a with
  | nil => exact absurd rfl ha
  | cons r a' => simp [ncols]

theorem ncols_colOf (r : List Rat) (hr : r ≠ []) :
    ncols (r.map (fun x => [x])) = 1 := by
  cases r with
  | nil => exact absurd rfl hr
  | cons x r' => simp [ncols]

/-- Transposing an `nsamp x 1` column vector gives the single-row matrix. -/
theorem transpose_colOf (r : List Rat) (hr : r ≠ []) :
    transposeMat (r.map (fun x => [x])) = [r] := by
  unfold transposeMat
  rw [ncols_colOf r hr]
  show (List.range 1).map _ = _
  rw [show List.range 1 = [0] from rfl, List.map_cons, List.map_nil]
  refine congrArg₂ _ ?_ rfl
  simp only [colv, List.map_map]
  exact Eq.trans (List.map_congr_left fun x _ => rfl) (List.map_id r)

/-- The old-style epoch concatenation over single-column epochs appends
each epoch as one row. -/
theorem fold_cols (n : Nat) (rs : List (List Rat)) : ∀ (acc : Mat), acc ≠ [] →
    ncols acc = n → (∀ r ∈ rs, r.length = n ∧ r ≠ []) →
    (rs.map (fun r => TagData.matrixData (r.map (fun x => [x])))).foldlM epochFold acc
      = .ok (acc ++ rs) := by
  induction rs with
  | nil => intro acc _ _ _; rw [List.map_nil, List.foldlM_nil, List.append_nil]; rfl
  | cons r rs' ih =>
    intro acc hne hcols hall
    obtain ⟨hrlen, hrne⟩ := hall r (by simp)
    rw [List.map_cons, List.foldlM_cons]
    have hstep : epochFold acc (TagData.matrixData (r.map (fun x => [x])))
        = .ok (acc ++ [r]) := by
      unfold epochFold
      rw [show epochMat (TagData.matrixData (r.map (fun x => [x])))
          = .ok (r.map (fun x => [x])) from rfl]
      rw [exceptBind_ok, transpose_colOf r hrne]
      have hv : npVstack acc [r] = some (acc ++ [r]) := by
        unfold npVstack
        rw [if_neg hne, if_neg (by simp), if_pos]
        rw [hcols, ncols_cons]
        omega
      rw [hv]; rfl
    rw [hstep, exceptBind_ok]
    
    have := ih (acc ++ [r]) (by simp) (by rw [ncols_append_left _ _ hne, hcols])
      (fun x hx => hall x (List.mem_cons_of_mem _ hx))
    rw [this, List.append_assoc, List.singleton_append]

/-- Evaluation of the single-epoch branch of lines 220-236. -/
theorem buildAllData_single (nchan : Int) (m : Mat) (nsamp : Int) :
    buildAllData nchan [TagData.matrixData m] nsamp =
      if (ncols (if ncols m = 1 ∧ nchan = 1 then transposeMat m else m) : Int) ≠ nsamp
      then .error .badNsamp
      else .ok (if ncols m = 1 ∧ nchan = 1 then transposeMat m else m) := rfl

/-! ### Claim theorems -/

/-- C3, counterexample: the claim describes an aspect holding exactly
`nchan` SINGLE-ROW epoch tags and asserts that row `k` of the assembled
matrix equals `e_k`.  With `nchan = 2`, `nsamp = 2` and the single-row
epochs `e0 = [[1, 2]]`, `e1 = [[3, 4]]` (each `1 x 2`), the code
transposes each epoch before stacking (line 229-231), producing a
`4 x 1` matrix, and then aborts with the sample-count error of line 235
instead of assembling the matrix with rows `e0`, `e1`. -/
theorem c3_counterexample :
    buildAllData 2 [TagData.matrixData [[1, 2]], TagData.matrixData [[3, 4]]] 2
      = Except.error Err.badNsamp := rfl

/-- C3 (amended): assembling an aspect whose epoch-tag count is neither 1
nor `info.nchan` raises the data-consistency error of line 217; with
exactly `nchan` SINGLE-COLUMN epoch tags `e0..e_{n-1}` (each stored
`nsamp x 1`, `nsamp >= 1`, `nchan >= 1`) in tag order, assembly succeeds
before calibration and row `k` of the assembled matrix is `e_k`
transposed — single-row epoch tags with more than one sample are instead
rejected with a sample-count error, per the counterexample. -/
theorem c3_epoch_assembly :
    (∀ (nchan : Int) (epoch : List TagData) (nsamp : Int),
      epoch.length ≠ 1 → (epoch.length : Int) ≠ nchan →
      buildAllData nchan epoch nsamp = .error .badNepoch)
    ∧ (∀ (nchan nsamp : Int) (rows : Mat), rows ≠ [] →
      (rows.length : Int) = nchan → 0 < nsamp →
      (∀ r ∈ rows, (r.length : Int) = nsamp) →
      buildAllData nchan (rows.map (fun r => TagData.matrixData (r.map (fun x => [x])))) nsamp
        = .ok rows) := by
  constructor
  · intro nchan epoch nsamp h1 h2
    unfold buildAllData rawAllData
    rw [if_pos ⟨h1, h2⟩]
    rfl
  · intro nchan nsamp rows hne hlen hpos hrlen
    have hrne : ∀ r ∈ rows, r ≠ [] := by
      intro r hr h
      have h2 := hrlen r hr
      subst h
      simp at h2
      omega
    cases rows with
    | nil => exact absurd rfl hne
    | cons r0 rs =>
      have hr0len := hrlen r0 (by simp)
      have hr0ne : r0 ≠ [] := hrne r0 (by simp)
      cases rs with
      | nil =>
        have hn1 : nchan = 1 := by simpa using hlen.symm
        subst hn1
        rw [List.map_cons, List.map_nil, buildAllData_single]
        have hcond : ncols (r0.map fun x => [x]) = 1 ∧ (1 : Int) = 1 :=
          ⟨ncols_colOf r0 hr0ne, rfl⟩
        rw [if_pos hcond, transpose_colOf r0 hr0ne]
        rw [if_neg (by rw [ncols_cons]; exact not_ne_iff.mpr hr0len)]
      | cons r1 rs' =>
        unfold buildAllData rawAllData
        rw [if_neg (by
          rw [List.length_map]
          rintro ⟨-, h⟩
          exact h hlen)]
        rw [if_neg (by rw [List.length_map]; simp)]
        rw [List.map_cons]
        rw [show (TagData.matrixData (r0.map fun x => [x])
            :: (r1 :: rs').map (fun r => TagData.matrixData (r.map fun x => [x]))).getD 0
              TagData.voidData
            = TagData.matrixData (r0.map fun x => [x]) from rfl]
        rw [show epochMat (TagData.matrixData (r0.map fun x => [x]))
            = .ok (r0.map fun x => [x]) from rfl]
        rw [exceptBind_ok]
        rw [show (TagData.matrixData (r0.map fun x => [x])
            :: (r1 :: rs').map (fun r => TagData.matrixData (r.map fun x => [x]))).drop 1
            = (r1 :: rs').map (fun r => TagData.matrixData (r.map fun x => [x])) from rfl]
        rw [transpose_colOf r0 hr0ne]
        rw [fold_cols r0.length (r1 :: rs') [r0] (by simp) (ncols_cons r0 [])
          (fun r hr => ⟨by
            have ha := hrlen r (List.mem_cons_of_mem _ hr)
            exact_mod_cast ha.trans hr0len.symm, hrne r (List.mem_cons_of_mem _ hr)⟩)]
        rw [exceptBind_ok, List.singleton_append]
        show (if (ncols (r0 :: r1 :: rs') : Int) ≠ nsamp then throw Err.badNsamp
              else pure (r0 :: r1 :: rs')) = _
        rw [if_neg (by rw [ncols_cons]; exact not_ne_iff.mpr hr0len)]
        rfl

/-- C3, witness: a three-epoch aspect with `nchan = 2` is rejected, and
two single-column epochs with `nchan = 2`, `nsamp = 2` assemble into the
matrix whose rows are the epochs' columns. -/
theorem c3_witness :
    buildAllData 2 [TagData.voidData, TagData.voidData, TagData.voidData] 5
        = Except.error Err.badNepoch
    ∧ buildAllData 2 [TagData.matrixData [[1], [2]], TagData.matrixData [[3], [4]]] 2
        = Except.ok [[1, 2], [3, 4]] :=
  ⟨c3_epoch_assembly.1 2 [TagData.voidData, TagData.voidData, TagData.voidData] 5
      (by decide) (by decide),
   c3_epoch_assembly.2 2 2 [[1, 2], [3, 4]] (by decide) (by decide) (by decide)
      (by decide)⟩

theorem zipWith_getD {α β γ : Type _} (f : α → β → γ) (a : List α) (b : List β)
    (k : Nat) (da : α) (db : β) (dc : γ) (ha : k < a.length) (hb : k < b.length) :
    (List.zipWith f a b).getD k dc = f (a.getD k da) (b.getD k db) := by
  induction a generalizing b k with
  | nil => simp at ha
  | cons x a' ih =>
    cases b with
    | nil => simp at hb
    | cons y b' =>
      cases k with
      | zero => simp
      | succ k' =>
        simp only [List.zipWith_cons_cons, List.getD_cons_succ]
        exact ih b' k' (by simpa using ha) (by simpa using hb)

/-- C4: on read, the assembled matrix is the raw epoch matrix with row
`k` multiplied by the scalar `info.chs[k].cal` — a `diag(cal)` left
multiply (lines 239-240); on write, the matrix is left-multiplied by the
diagonal `decal` holding `1/cal[k]` (lines 377-382), and that decal
multiply composed with the read-side calibration is exactly the identity
over the rationals (precision loss enters only at the float32 payload
encode). -/
theorem c4_calibration (info : MeasInfo) (raw : Mat)
    (hlen : (raw.length : Int) = info.nchan)
    (hchs : (info.chs.length : Int) = info.nchan)
    (hrect : ∀ r ∈ raw, r.length = ncols raw)
    (hcal : ∀ ch ∈ info.chs, ch.cal ≠ 0) :
    -- the reader's calibration vector (line 239) is the per-channel cal list
    ((List.range info.nchan.toNat).map (fun k => (info.chs.getD k chZero).cal)
        = info.chs.map (fun ch => ch.cal))
    -- line 240: np.dot(np.diag(cals), raw) scales row k by cal k
    ∧ npDot (npDiag (info.chs.map (fun ch => ch.cal))) raw
        = some (List.zipWith (fun ch row => row.map (fun x => ch.cal * x)) info.chs raw)
    -- row-level reading of the same fact
    ∧ (∀ k, k < raw.length →
        (List.zipWith (fun ch row => row.map (fun x => ch.cal * x)) info.chs raw).getD k []
          = (raw.getD k []).map (fun x => (info.chs.getD k chZero).cal * x))
    -- lines 377-379: the write-side decal matrix is diag(1/cal)
    ∧ mkDecal info = npDiag (info.chs.map (fun ch => 1 / ch.cal))
    -- write after read: the decal multiply undoes the calibration exactly
    ∧ npDot (mkDecal info)
        (List.zipWith (fun ch row => row.map (fun x => ch.cal * x)) info.chs raw)
        = some raw := by
  have hn : info.nchan.toNat = info.chs.length := by omega
  have hrawlen : raw.length = info.chs.length := by omega
  have hcals : (List.range info.nchan.toNat).map (fun k => (info.chs.getD k chZero).cal)
      = info.chs.map (fun ch => ch.cal) := by
    rw [hn]
    exact range_map_getD info.chs chZero (fun ch => ch.cal)
  have hdecal : mkDecal info = npDiag (info.chs.map (fun ch => 1 / ch.cal)) := by
    unfold mkDecal
    rw [hn]
    rw [range_map_getD info.chs chZero (fun ch => 1 / ch.cal)]
  have hdot : npDot (npDiag (info.chs.map (fun ch => ch.cal))) raw
      = some (List.zipWith (fun ch row => row.map (fun x => ch.cal * x)) info.chs raw) := by
    rw [npDot_diag (info.chs.map (fun ch => ch.cal)) raw (by simpa using hrawlen) hrect]
    rw [List.zipWith_map_left]
  refine ⟨hcals, hdot, ?_, hdecal, ?_⟩
  · intro k hk
    rw [zipWith_getD (fun ch row => row.map (fun x => ch.cal * x)) info.chs raw k
      chZero [] [] (by omega) hk]
  · rw [hdecal]
    have hclen : (List.zipWith (fun ch row => row.map (fun x => ch.cal * x)) info.chs raw).length
        = (info.chs.map (fun ch => 1 / ch.cal)).length := by
      simp [hrawlen]
    have hcrect := zipWith_scale_rect (g := fun ch x => ch.cal * x) info.chs raw hrect
    rw [npDot_diag (info.chs.map (fun ch => 1 / ch.cal)) _ hclen hcrect]
    rw [List.zipWith_map_left]
    refine congrArg some ?_
    calc List.zipWith (fun ch row => row.map (fun x => 1 / ch.cal * x)) info.chs
          (List.zipWith (fun ch row => row.map (fun x => ch.cal * x)) info.chs raw)
        = List.zipWith (fun c row => row.map (fun x => 1 / c * x)) (info.chs.map (fun ch => ch.cal))
          (List.zipWith (fun c row => row.map (fun x => c * x)) (info.chs.map (fun ch => ch.cal)) raw) := by
          rw [List.zipWith_map_left, List.zipWith_map_left]
      _ = raw := decal_inv (info.chs.map (fun ch => ch.cal)) raw
          (fun c hc => by
            obtain ⟨ch, hch, rfl⟩ := List.mem_map.mp hc
            exact hcal ch hch)
          (by simpa using hrawlen)

/-- C4, witness: a concrete two-channel calibration with `cal = [2, 4]`
scales the rows of the raw matrix, and the write-side decal multiply
recovers the raw matrix exactly. -/
theorem c4_witness :
    npDot (npDiag [2, 4]) [[1, 2], [3, 4]] = some [[2, 4], [12, 16]]
    ∧ npDot (mkDecal
        { sfreq := 600, highpass := 0, lowpass := 40, nchan := 2,
          chs := [⟨0, 1, 2, 1, 2, 0, [], 0, 0, "a"⟩, ⟨1, 2, 2, 1, 4, 0, [], 0, 0, "b"⟩],
          meas_date := none, meas_id := none, dev_head_t := none, ctf_head_t := none,
          dig := none, projs := [], comps := none, bads := [], filename := none })
        [[2, 4], [12, 16]] = some [[1, 2], [3, 4]] := by
  have h := c4_calibration
    { sfreq := 600, highpass := 0, lowpass := 40, nchan := 2,
      chs := [⟨0, 1, 2, 1, 2, 0, [], 0, 0, "a"⟩, ⟨1, 2, 2, 1, 4, 0, [], 0, 0, "b"⟩],
      meas_date := none, meas_id := none, dev_head_t := none, ctf_head_t := none,
      dig := none, projs := [], comps := none, bads := [], filename := none }
    [[1, 2], [3, 4]] (by decide) (by decide) (by decide) (by decide)
  constructor
  · have h1 := h.2.1
    norm_num [List.zipWith] at h1
    exact h1
  · have h2 := h.2.2.2.2
    norm_num [List.zipWith] at h2
    exact h2

@[simp] theorem exceptPure {α : Type _} (a : α) :
    (pure a : Except Err α) = Except.ok a := rfl

theorem baselineBounds_spec {bmin bmax : Option Rat} {times : List Rat} {imin imax : Nat}
    (hb : baselineBounds bmin bmax times = .ok (imin, imax)) :
    (bmin = none → imin = 0)
    ∧ (∀ b, bmin = some b →
        (whereIdx (fun t => decide (b ≤ t)) times).head? = some imin)
    ∧ (bmax = none → imax = times.length)
    ∧ (∀ b, bmax = some b → 0 < imax ∧
        (whereIdx (fun t => decide (t ≤ b)) times).getLast? = some (imax - 1)) := by
  cases bmin with
  | none =>
    cases bmax with
    | none =>
      simp only [baselineBounds, exceptPure, exceptBind_ok] at hb
      rw [Except.ok.injEq, Prod.mk.injEq] at hb
      exact ⟨fun _ => hb.1.symm, by simp, fun _ => hb.2.symm, by simp⟩
    | some b =>
      simp only [baselineBounds, exceptPure, exceptBind_ok] at hb
      cases hh : (whereIdx (fun t => decide (t ≤ b)) times).getLast? with
      | none => rw [hh] at hb; cases hb
      | some i =>
        rw [hh] at hb
        simp only [exceptPure, exceptBind_ok] at hb
        rw [Except.ok.injEq, Prod.mk.injEq] at hb
        obtain ⟨hbi, hbj⟩ := hb
        refine ⟨fun _ => hbi.symm, by simp, by simp, fun b' hb' => ?_⟩
        cases hb'
        refine ⟨by omega, ?_⟩
        rw [← hbj]
        simpa using hh
  | some b0 =>
    cases hh0 : (whereIdx (fun t => decide (b0 ≤ t)) times).head? with
    | none =>
      simp only [baselineBounds] at hb
      rw [hh0] at hb
      cases hb
    | some i0 =>
      cases bmax with
      | none =>
        simp only [baselineBounds] at hb
        rw [hh0] at hb
        simp only [exceptPure, exceptBind_ok] at hb
        rw [Except.ok.injEq, Prod.mk.injEq] at hb
        obtain ⟨hbi, hbj⟩ := hb
        refine ⟨by simp, fun b' hb' => ?_, fun _ => hbj.symm, by simp⟩
        cases hb'
        rw [← hbi]
        exact hh0
      | some b =>
        simp only [baselineBounds] at hb
        rw [hh0] at hb
        simp only [exceptPure, exceptBind_ok] at hb
        cases hh : (whereIdx (fun t => decide (t ≤ b)) times).getLast? with
        | none => rw [hh] at hb; cases hb
        | some i =>
          rw [hh] at hb
          simp only [exceptPure, exceptBind_ok] at hb
          rw [Except.ok.injEq, Prod.mk.injEq] at hb
          obtain ⟨hbi, hbj⟩ := hb
          refine ⟨by simp, fun b' hb' => ?_, by simp, fun b' hb' => ?_⟩
          · cases hb'
            rw [← hbi]
            exact hh0
          · cases hb'
            refine ⟨by omega, ?_⟩
            rw [← hbj]
            simpa using hh

/-- C6: with a baseline interval `(bmin, bmax)` whose slice bounds
compute to `(imin, imax)`, assembly equals the uncorrected assembly with,
per channel, the mean of `data[k, imin:imax]` subtracted from the whole
row; `imin` is 0 when `bmin` is absent and otherwise the index of the
first time `>= bmin`; `imax` is `nsamp` when `bmax` is absent and
otherwise one past the index of the last time `<= bmax`; with no baseline
no correction is applied. -/
theorem c6_baseline (info : MeasInfo) (evk asp : Tree) (bmin bmax : Option Rat)
    (E0 : Evoked) (imin imax : Nat)
    (h0 : assembleUnit info evk asp none = .ok E0)
    (hb : baselineBounds bmin bmax E0.times = .ok (imin, imax)) :
    -- the corrected read succeeds and subtracts the slice mean per channel
    assembleUnit info evk asp (some (bmin, bmax))
        = .ok { E0 with data := correctRows imin imax E0.data }
    -- what the correction does to each row
    ∧ correctRows imin imax E0.data
        = E0.data.map (fun row =>
            row.map (fun x => x - listMean ((row.drop imin).take (imax - imin))))
    -- baseline absent: no correction anywhere in the reader
    ∧ (∀ (t : List Rat) (d : Mat), applyBaseline none t d = .ok d)
    -- imin as specified
    ∧ (bmin = none → imin = 0)
    ∧ (∀ b, bmin = some b →
        imin < E0.times.length ∧ b ≤ E0.times.getD imin 0
        ∧ ∀ j < imin, ¬ b ≤ E0.times.getD j 0)
    -- imax as specified
    ∧ (bmax = none → imax = E0.times.length)
    ∧ (∀ b, bmax = some b →
        0 < imax ∧ imax - 1 < E0.times.length ∧ E0.times.getD (imax - 1) 0 ≤ b
        ∧ ∀ j, imax ≤ j → j < E0.times.length → ¬ E0.times.getD j 0 ≤ b) := by
  have hcore : assembleCore info evk asp = .ok E0 := by
    rw [← assembleUnit_none]; exact h0
  obtain ⟨hm1, hm2, hm3, hm4⟩ := baselineBounds_spec hb
  refine ⟨?_, rfl, fun t d => rfl, hm1, ?_, hm3, ?_⟩
  · unfold assembleUnit
    rw [hcore, exceptBind_ok, applyBaseline_some_eq, hb]
    rfl
  · intro b hbmin
    have hh := hm2 b hbmin
    obtain ⟨h1, h2, h3⟩ := filter_range_head_spec _ _ _ hh
    exact ⟨h1, by simpa using h2, fun j hj => by simpa using h3 j hj⟩
  · intro b hbmax
    obtain ⟨hpos, hh⟩ := hm4 b hbmax
    obtain ⟨h1, h2, h3⟩ := filter_range_getLast_spec _ _ _ hh
    refine ⟨hpos, h1, by simpa using h2, fun j hij hjn => ?_⟩
    have := h3 j (by omega) hjn
    simpa using this

/-- Evaluation of the reader on the one-channel fixture. -/
theorem assembleUnit_fixture : assembleUnit infoW evkW aspW none = .ok E0W := by
  norm_num [assembleUnit, assembleCore, finishAssembly, applyBaseline, ev_scan_step,
    asp_scan_step, buildAllData, rawAllData, epochMat, npDot, npDiag, dotp, colv, ncols,
    transposeMat, listMean, infoW, evkW, aspW, E0W, Tree.directory, List.foldlM,
    FIFF_COMMENT, FIFF_FIRST_SAMPLE, FIFF_LAST_SAMPLE, FIFF_NCHAN, FIFF_SFREQ,
    FIFF_CH_INFO, FIFF_ASPECT_KIND, FIFF_NAVE, FIFF_EPOCH, chZero]
  decide

/-- C6, witness: baseline `(0, 1)` over times `[0, 1, 2]` has bounds
`imin = 0`, `imax = 2`; the mean `3/2` of the first two samples is
subtracted from the single channel row. -/
theorem c6_witness :
    assembleUnit infoW evkW aspW (some (some 0, some 1))
      = .ok { info := infoW, nave := 1, aspect_kind := 100, first := 0, last := 2,
              comment := "No comment", times := [0, 1, 2],
              data := [[-(1 : Rat)/2, 1/2, 3/2]] } := by
  have hb : baselineBounds (some 0) (some 1) E0W.times = .ok (0, 2) := rfl
  have h := (c6_baseline infoW evkW aspW (some 0) (some 1) E0W 0 2
    assembleUnit_fixture hb).1
  rw [h]
  norm_num [correctRows, listMean, E0W, infoW]

/-! ### Inversion of a successful assembly -/

theorem buildAllData_ok_ncols {nchan : Int} {epoch : List TagData} {nsamp : Int}
    {m : Mat} (h : buildAllData nchan epoch nsamp = .ok m) : (ncols m : Int) = nsamp := by
  unfold buildAllData at h
  cases hr : rawAllData nchan epoch with
  | error e => rw [hr] at h; cases h
  | ok m0 =>
    rw [hr] at h
    simp only [exceptBind_ok] at h
    split at h
    · cases h
    next hc =>
      rw [exceptPure, Except.ok.injEq] at h
      subst h
      omega

theorem finishAssembly_inv {info : MeasInfo} {c : String} {nave ak first last : Int}
    {ep : List TagData} {E0 : Evoked}
    (h : finishAssembly info c nave ak first last ep = .ok E0) :
    E0.info = info ∧ E0.first = first ∧ E0.last = last ∧ E0.nave = nave
    ∧ E0.aspect_kind = ak ∧ E0.comment = c
    ∧ E0.times = (List.range (last + 1 - first).toNat).map
        (fun i : Nat => ((first + (i : Int) : Int) : Rat) / info.sfreq)
    ∧ (E0.times.length : Int) = last - first + 1
    ∧ E0.times.length = ncols E0.data := by
  unfold finishAssembly at h
  cases hbd : buildAllData info.nchan ep (last - first + 1) with
  | error e => rw [hbd] at h; cases h
  | ok all0 =>
    have hnc := buildAllData_ok_ncols hbd
    rw [hbd] at h
    simp only [exceptBind_ok] at h
    split at h
    · cases h
    · cases hdot : npDot (npDiag ((List.range info.nchan.toNat).map
          (fun k => (info.chs.getD k chZero).cal))) all0 with
      | none => rw [hdot] at h; cases h
      | some d2 =>
        rw [hdot] at h
        simp only [exceptPure, exceptBind_ok, Except.ok.injEq] at h
        subst h
        refine ⟨rfl, rfl, rfl, rfl, rfl, rfl, rfl, ?_, ?_⟩
        · simp only [List.length_map, List.length_range]
          omega
        · simp only [List.length_map, List.length_range]
          obtain ⟨hcnd, -⟩ := npDot_some hdot
          rw [ncols_npDiag, List.length_map, List.length_range] at hcnd
          cases all0 with
          | nil =>
            obtain ⟨-, hd2⟩ := npDot_some hdot
            have hz : info.nchan.toNat = 0 := by simpa using hcnd
            have hdiag : npDiag ((List.range info.nchan.toNat).map
                (fun k => (info.chs.getD k chZero).cal)) = [] := by
              rw [hz]
              rfl
            rw [hdiag] at hd2
            subst hd2
            have hnc0 : ((0 : Nat) : Int) = last - first + 1 := hnc
            simp only [List.map_nil]
            show Int.toNat (last + 1 - first) = ncols ([] : Mat)
            have hc0 : ncols ([] : Mat) = 0 := rfl
            rw [hc0]
            omega
          | cons r all0' =>
            have hne2 : npDiag ((List.range info.nchan.toNat).map
                (fun k => (info.chs.getD k chZero).cal)) ≠ [] := by
              intro hd
              have hlen0 := congrArg List.length hd
              rw [npDiag_length, List.length_map, List.length_range] at hlen0
              rw [hcnd] at hlen0
              simp at hlen0
            have hcc := npDot_some_ncols hdot hne2
            rw [hcc]
            have hnc2 : (ncols (r :: all0') : Int) = last - first + 1 := hnc
            omega

theorem coreTail_exists (info : MeasInfo) (s : EvScan) (asp : Tree) (c : String)
    (E0 : Evoked)
    (h : (do
      let first ← requireVal s.first
      let last ← requireVal s.last
      let a ← asp.directory.foldlM asp_scan_step ⟨none, none, 1, []⟩
      let aspect_kind ← requireVal a.aspect_kind
      finishAssembly info (a.comment.getD c) a.nave aspect_kind first last a.epoch)
      = .ok E0) :
    ∃ info' c' nave ak first last ep,
      finishAssembly info' c' nave ak first last ep = .ok E0 := by
  cases hf : s.first with
  | none =>
    rw [hf] at h
    simp only [requireVal_none, exceptThrow, exceptBind_error] at h
    cases h
  | some first =>
    rw [hf] at h
    simp only [requireVal_some, exceptPure, exceptBind_ok] at h
    cases hl : s.last with
    | none =>
      rw [hl] at h
      simp only [requireVal_none, exceptThrow, exceptBind_error] at h
      cases h
    | some last =>
      rw [hl] at h
      simp only [requireVal_some, exceptPure, exceptBind_ok] at h
      cases ha : asp.directory.foldlM asp_scan_step ⟨none, none, 1, []⟩ with
      | error e => rw [ha] at h; cases h
      | ok a =>
        rw [ha] at h
        simp only [exceptBind_ok] at h
        cases hak : a.aspect_kind with
        | none =>
          rw [hak] at h
          simp only [requireVal_none, exceptThrow, exceptBind_error] at h
          cases h
        | some ak =>
          rw [hak] at h
          simp only [requireVal_some, exceptPure, exceptBind_ok] at h
          exact ⟨_, _, _, _, _, _, _, h⟩

theorem assembleCore_ok_finish {info0 : MeasInfo} {evk asp : Tree} {E0 : Evoked}
    (h : assembleCore info0 evk asp = .ok E0) :
    ∃ info c nave ak first last ep,
      finishAssembly info c nave ak first last ep = .ok E0 := by
  unfold assembleCore at h
  cases hs : evk.directory.foldlM ev_scan_step ⟨0, -1, [], none, none, none⟩ with
  | error e => rw [hs] at h; cases h
  | ok s =>
    rw [hs] at h
    simp only [exceptBind_ok] at h
    split at h
    · split at h
      · cases h
      · simp only [exceptPure, exceptBind_ok] at h
        exact coreTail_exists _ s asp _ E0 h
    · simp only [exceptPure, exceptBind_ok] at h
      exact coreTail_exists _ s asp _ E0 h

/-- C7: for every successfully assembled dataset, `times` has length
`last - first + 1`, equal to the column count of `data`, and
`times[i] = (first + i) / sfreq` for every `i` in range, where `sfreq`
is the rate recorded on the dataset's info, i.e. after any local
override. -/
theorem c7_time_axis (info : MeasInfo) (evk asp : Tree)
    (β : Option (Option Rat × Option Rat)) (E : Evoked)
    (h : assembleUnit info evk asp β = .ok E) :
    (E.times.length : Int) = E.last - E.first + 1
    ∧ E.times.length = ncols E.data
    ∧ ∀ i (hi : i < E.times.length),
        E.times.get ⟨i, hi⟩ = ((E.first + (i : Int) : Int) : Rat) / E.info.sfreq := by
  unfold assembleUnit at h
  cases hcore : assembleCore info evk asp with
  | error er => rw [hcore] at h; cases h
  | ok E0 =>
    rw [hcore] at h
    simp only [exceptBind_ok] at h
    cases happ : applyBaseline β E0.times E0.data with
    | error er => rw [happ] at h; cases h
    | ok d' =>
      rw [happ] at h
      simp only [exceptPure, exceptBind_ok, Except.ok.injEq] at h
      subst h
      obtain ⟨hdl, hdc⟩ := applyBaseline_ok_shape happ
      obtain ⟨info', c', nave', ak', first', last', ep', hfin⟩ :=
        assembleCore_ok_finish hcore
      obtain ⟨hinfo, hf, hl, -, -, -, ht, hlen, hnc⟩ := finishAssembly_inv hfin
      refine ⟨?_, ?_, ?_⟩
      · show (E0.times.length : Int) = E0.last - E0.first + 1
        rw [hf, hl]
        exact hlen
      · show E0.times.length = ncols d'
        rw [hdc]
        exact hnc
      · intro i hi2
        show E0.times.get ⟨i, hi2⟩ = ((E0.first + (i : Int) : Int) : Rat) / E0.info.sfreq
        rw [List.get_of_eq ht ⟨i, hi2⟩]
        rw [List.get_eq_getElem, List.getElem_map, List.getElem_range]
        rw [hinfo, hf]

/-- C7, witness: on the one-channel fixture the time axis has three
samples, matching the data's column count. -/
theorem c7_witness :
    (E0W.times.length : Int) = E0W.last - E0W.first + 1
    ∧ E0W.times.length = ncols E0W.data := by
  have h := c7_time_axis infoW evkW aspW none E0W assembleUnit_fixture
  exact ⟨h.1, h.2.1⟩

/-! ### C2: shielded aspects crash the selector (line 107) -/

/-- C2: the claim says shielded (`SMSH`) aspect blocks are appended to
the enumeration and selectable; in the code, any evoked block holding a
shielded aspect overwrites its `naspect` count with the two-element list
`[count, saspects]` (line 107, marked `XXX : potential bug`), which the
next line passes to `np.ones` as a dtype, raising `TypeError` — so on a
file whose single evoked block has one ordinary and one shielded aspect,
even selector 0 returns no dataset. -/
theorem c2_smsh_typeerror :
    ((dir_tree_find measSmsh FIFFB_EVOKED).map
      (fun e => (dir_tree_find e FIFFB_SMSH_ASPECT).length)) = [1]
    ∧ readEvokedFrom measSmsh infoW 0 none = .error .typeError := ⟨rfl, rfl⟩

/-! ### C5: selector range behaviour -/

theorem identifySets_ok_spec (l : List Tree) :
    ∀ (is_smsh : Option Nat) (n : Nat) (acc sets : List SetRec) (total : Nat),
    identifySets l is_smsh n acc = .ok (sets, total) →
    ∃ tail, sets = acc ++ tail ∧ tail.length = l.length
      ∧ total = n + (tail.map (fun st => st.naspect)).sum := by
  induction l with
  | nil =>
    intro is_smsh n acc sets total h
    simp only [identifySets, Except.ok.injEq, Prod.mk.injEq] at h
    exact ⟨[], by rw [List.append_nil, h.1], rfl, by simp [h.2]⟩
  | cons e rest ih =>
    intro is_smsh n acc sets total h
    simp only [identifySets] at h
    split at h
    · cases h
    · rename_i is_smsh' naspect' heq
      split at h
      · cases h
      · obtain ⟨tail', hsets, hlen, htot⟩ := ih is_smsh' naspect' _ _ _ h
        refine ⟨⟨dir_tree_find e FIFFB_ASPECT,
                 (dir_tree_find e FIFFB_ASPECT).length⟩ :: tail', ?_, ?_, ?_⟩
        · rw [hsets, List.append_assoc, List.singleton_append]
        · simp [hlen]
        · have hn' : naspect' = n + (dir_tree_find e FIFFB_ASPECT).length := by
            split at heq
            · split at heq
              · cases heq
                rfl
              · split at heq
                · cases heq
                · cases heq
                  rfl
            · cases heq
              omega
          simp only [htot, hn', List.map_cons, List.sum_cons]
          omega

theorem map_snd_zip_len {α β γ : Type _} (f : β → γ) :
    ∀ (l₁ : List α) (l₂ : List β), l₁.length = l₂.length →
      (l₁.zip l₂).map (fun x => f x.2) = l₂.map f
  | [], [], _ => rfl
  | a :: l₁, b :: l₂, h => by
    simp only [List.zip_cons_cons, List.map_cons]
    rw [map_snd_zip_len f l₁ l₂ (by simpa using h)]

theorem sum_natCast_map (l : List SetRec) :
    (((l.map (fun st => st.naspect)).sum : Nat) : Int)
      = (l.map (fun st => (st.naspect : Int))).sum := by
  induction l with
  | nil => rfl
  | cons x xs ih => simp only [List.map_cons, List.sum_cons]; push_cast [ih]; ring

theorem selectUnit_ok (l : List (Tree × SetRec)) :
    ∀ (setno p : Int), p ≤ setno →
      setno < p + (l.map (fun x => ((x.2.naspect : Nat) : Int))).sum →
      ∃ u, selectUnit l setno p = .ok u := by
  induction l with
  | nil =>
    intro setno p h0 h1
    simp only [List.map_nil, List.sum_nil, Int.add_zero] at h1
    omega
  | cons x rest ih =>
    intro setno p h0 h1
    simp only [List.map_cons, List.sum_cons] at h1
    by_cases hin : p ≤ setno ∧ setno < p + (x.2.naspect : Int)
    · exact ⟨_, by rw [selectUnit, if_pos hin]⟩
    · have hge : p + (x.2.naspect : Int) ≤ setno := by
        rcases not_and_or.mp hin with h | h
        · omega
        · omega
      obtain ⟨u, hu⟩ := ih setno (p + x.2.naspect) hge (by omega)
      exact ⟨u, by rw [selectUnit, if_neg hin]; exact hu⟩

/-- C5, amended: the range check of lines 65-66 and 114-116 behaves as
claimed only on files whose aspect identification succeeds (equal
nonzero per-block aspect counts, no shielded aspects): then a negative
selector raises the positivity error, a selector at or past the total
raises the range error, and an in-range selector reaches the enumerated
unit, the read returning exactly that unit's assembly. -/
theorem c5_selection_range (meas : Tree) (info : MeasInfo) (setno : Int)
    (β : Option (Option Rat × Option Rat)) (sets : List SetRec) (total : Nat)
    (hp : (dir_tree_find meas FIFFB_PROCESSED_DATA).length ≠ 0)
    (he : (dir_tree_find meas FIFFB_EVOKED).length ≠ 0)
    (hid : identifySets (dir_tree_find meas FIFFB_EVOKED) none 0 []
      = .ok (sets, total)) :
    (setno < 0 → readEvokedFrom meas info setno β = .error .selectorNegative)
    ∧ ((total : Int) ≤ setno →
        readEvokedFrom meas info setno β = .error .selectorOutOfRange)
    ∧ (0 ≤ setno → setno < (total : Int) →
        ∃ evk asp,
          selectUnit ((dir_tree_find meas FIFFB_EVOKED).zip sets) setno 0 = .ok (evk, asp)
          ∧ readEvokedFrom meas info setno β = assembleUnit info evk asp β) := by
  obtain ⟨tail, hsets, hlen, htot⟩ := identifySets_ok_spec _ _ _ _ _ _ hid
  rw [List.nil_append] at hsets
  subst hsets
  refine ⟨?_, ?_, ?_⟩
  · intro hneg
    simp only [readEvokedFrom]
    rw [if_pos hneg]
    rfl
  · intro hge
    have h0 : (0 : Int) ≤ total := Int.ofNat_nonneg total
    simp only [readEvokedFrom]
    rw [if_neg (by omega : ¬ setno < 0), if_neg hp, if_neg he, hid]
    simp only [exceptBind_ok]
    rw [if_pos (Or.inl hge)]
    rfl
  · intro h0 hlt
    have hsum : setno < (0 : Int)
        + (((dir_tree_find meas FIFFB_EVOKED).zip sets).map
            (fun x => ((x.2.naspect : Nat) : Int))).sum := by
      rw [map_snd_zip_len (fun st : SetRec => ((st.naspect : Nat) : Int)) _ _
        (by rw [hlen])]
      rw [← sum_natCast_map]
      omega
    obtain ⟨u, hu⟩ := selectUnit_ok _ setno 0 h0 hsum
    refine ⟨u.1, u.2, by rw [← hu], ?_⟩
    simp only [readEvokedFrom]
    rw [if_neg (by omega : ¬ setno < 0), if_neg hp, if_neg he, hid]
    simp only [exceptBind_ok]
    rw [if_neg (by push_neg; omega : ¬ (setno ≥ (total : Int) ∨ setno < 0)), hu]
    simp only [exceptBind_ok]

/-- C5, counterexample: a file of two evoked blocks with one and two
ordinary aspects — three selectable units — fails with the `np.r_` shape
`ValueError` even for selector 0, because `is_smsh` rows of widths 1 and
2 cannot be stacked (lines 102-105): the claimed in-range success does
not hold for every file. -/
theorem c5_counterexample :
    ((dir_tree_find measUneven FIFFB_EVOKED).map
      (fun e => (dir_tree_find e FIFFB_ASPECT).length)).sum = 3
    ∧ readEvokedFrom measUneven infoW 0 none = .error .rShapeMismatch := ⟨rfl, rfl⟩

/-- C5, witness: on the one-unit fixture the amended theorem gives the
negative-selector error at -1 and the range error at 2. -/
theorem c5_witness :
    readEvokedFrom measW infoW (-1) none = .error .selectorNegative
    ∧ readEvokedFrom measW infoW 2 none = .error .selectorOutOfRange := by
  have h1 := c5_selection_range measW infoW (-1) none
    [⟨[aspW], 1⟩] 1 (by decide) (by decide) rfl
  have h2 := c5_selection_range measW infoW 2 none
    [⟨[aspW], 1⟩] 1 (by decide) (by decide) rfl
  exact ⟨h1.1 (by decide), h2.2.1 (by decide)⟩

/-! ### C8: the writer emits its header before validating shapes -/


/-- C8, amended: on a dataset whose channel list is shorter than the
declared channel count, or whose data row count disagrees with it, the
writer does fail — but only after the file header, measurement-info
prefix and (in the row-count case) the whole info section have been
emitted: the failure never leaves the byte stream empty, contradicting
the claimed validate-before-emitting order. -/
theorem c8_validation_after_emission (f32 : Rat → Rat) (fs : String → Option Tree)
    (D : Evoked)
    (h : D.info.chs.length < D.info.nchan.toNat ∨ (D.data.length : Int) ≠ D.info.nchan) :
    (write_evoked f32 fs D).err ≠ none ∧ (write_evoked f32 fs D).events ≠ [] := by
  simp only [write_evoked, Evoked.save]
  split
  · exact ⟨by simp, by simp [start_file_tags]⟩
  · split
    · exact ⟨by simp, by simp [start_file_tags]⟩
    · split
      · exact ⟨by simp, by simp [start_file_tags]⟩
      · rename_i hshort
        have hrows : (D.data.length : Int) ≠ D.info.nchan := h.resolve_left hshort
        split
        · exact ⟨by simp, by simp [start_file_tags]⟩
        · rename_i hnegc
          have hne : ncols (mkDecal D.info) ≠ D.data.length := by
            rw [mkDecal, ncols_npDiag, List.length_map, List.length_range]
            omega
          split
          · exact ⟨by simp, by simp [start_file_tags]⟩
          · rename_i mat hdot
            exact absurd hdot (by rw [npDot, if_neg hne]; exact fun hx => by cases hx)

/-- C8, counterexample: writing a dataset declaring one channel but
holding an empty channel list fails with `IndexError`, yet the emitted
stream already holds the header and general-info tags — bytes were
written before the validation failure. -/
theorem c8_counterexample :
    (write_evoked id (fun _ => none) E8).err = some .indexError
    ∧ (write_evoked id (fun _ => none) E8).events.length ≠ 0 := ⟨rfl, by decide⟩

/-- C8, witness: the amended theorem applied to the same
one-channel-declared, zero-channel dataset. -/
theorem c8_witness :
    (write_evoked id (fun _ => none) E8).err ≠ none
    ∧ (write_evoked id (fun _ => none) E8).events ≠ [] :=
  c8_validation_after_emission id (fun _ => none) E8 (Or.inl (by decide))

/-! ### C9: the writer renumbers channel scan numbers in place -/

/-- C9, amended: `save` leaves the dataset unchanged except for the
in-place channel renumbering of line 329: once the channel-writing loop
is reached, `chs[k]['scanno']` is overwritten with `k` for the first
`nchan` channels, so after the call the in-memory dataset is either
untouched (failure before the loop) or differs from the input exactly in
those scan numbers. -/
theorem c9_scanno_mutation (f32 : Rat → Rat) (fs : String → Option Tree) (D : Evoked) :
    (write_evoked f32 fs D).dataset = D
    ∨ (write_evoked f32 fs D).dataset
        = { D with info := { D.info with chs := renumberChs D.info } } := by
  simp only [write_evoked, Evoked.save]
  split
  · exact Or.inl rfl
  · split
    · exact Or.inl rfl
    · split
      · exact Or.inr rfl
      · split
        · exact Or.inr rfl
        · split
          · exact Or.inr rfl
          · exact Or.inr rfl

/-- C9, counterexample: writing a dataset whose single channel has scan
number 5 succeeds and overwrites that scan number with 0 in place: the
in-memory dataset after the call differs from the input, refuting the
claimed read-only treatment. -/
theorem c9_counterexample :
    (write_evoked id (fun _ => none) E9).err = none
    ∧ (write_evoked id (fun _ => none) E9).dataset ≠ E9 := ⟨rfl, by decide⟩

/-! ### Parser step lemmas for the round-trip development -/

theorem goTags_cons (tg : WTag) (rest : List WTag) (cur : Frame) (stack : List Frame) :
    goTags (tg :: rest) cur stack
      = goTags rest (goStep tg cur stack).1 (goStep tg cur stack).2 := by
  rw [goTags]

theorem goStep_flat (tg : WTag) (cur : Frame) (stack : List Frame)
    (h1 : tg.kind ≠ FIFF_BLOCK_START) (h2 : tg.kind ≠ FIFF_BLOCK_END) :
    goStep tg cur stack = (cur.addEntry (entryOf tg), stack) := by
  rw [goStep, if_neg h1, if_neg h2]
  rfl

theorem goTags_flat (tg : WTag) (rest : List WTag) (cur : Frame) (stack : List Frame)
    (h1 : tg.kind ≠ FIFF_BLOCK_START) (h2 : tg.kind ≠ FIFF_BLOCK_END) :
    goTags (tg :: rest) cur stack = goTags rest (cur.addEntry (entryOf tg)) stack := by
  rw [goTags_cons, goStep_flat tg cur stack h1 h2]

theorem goStep_start (k : Int) (cur : Frame) (stack : List Frame) (hk : i32 k = k) :
    goStep (start_block k) cur stack = (⟨k, [], []⟩, cur :: stack) := by
  rw [goStep]
  rw [if_pos (show (start_block k).kind = FIFF_BLOCK_START from rfl)]
  rw [goStartFrame]
  simp only [start_block, write_int, hk]

theorem goTags_start (k : Int) (rest : List WTag) (cur : Frame) (stack : List Frame)
    (hk : i32 k = k) :
    goTags (start_block k :: rest) cur stack = goTags rest ⟨k, [], []⟩ (cur :: stack) := by
  rw [goTags_cons, goStep_start k cur stack hk]

theorem goStep_end (k : Int) (cur parent : Frame) (stack : List Frame) :
    goStep (end_block k) cur (parent :: stack) = (parent.addChild cur.close, stack) := by
  rw [goStep]
  rw [if_neg (show ¬ (end_block k).kind = FIFF_BLOCK_START from by
    intro h
    simp only [end_block, write_int, FIFF_BLOCK_END, FIFF_BLOCK_START] at h
    omega)]
  rw [if_pos (show (end_block k).kind = FIFF_BLOCK_END from rfl)]
  rw [goEndFrame]

theorem goTags_end (k : Int) (rest : List WTag) (cur parent : Frame) (stack : List Frame) :
    goTags (end_block k :: rest) cur (parent :: stack)
      = goTags rest (parent.addChild cur.close) stack := by
  rw [goTags_cons, goStep_end k cur parent stack]

theorem goTags_flat_seg (l : List WTag) :
    ∀ (rest : List WTag) (cur : Frame) (stack : List Frame),
    (∀ tg ∈ l, tg.kind ≠ FIFF_BLOCK_START ∧ tg.kind ≠ FIFF_BLOCK_END) →
    goTags (l ++ rest) cur stack
      = goTags rest { cur with dir := cur.dir ++ l.map entryOf } stack := by
  induction l with
  | nil => intro rest cur stack _; simp
  | cons tg l ih =>
    intro rest cur stack h
    have htg := h tg (by simp)
    rw [List.cons_append, goTags_flat tg _ _ _ htg.1 htg.2,
      ih rest _ stack (fun x hx => h x (by simp [hx]))]
    simp [Frame.addEntry]


/-! ### The saved stream and its parse -/

theorem save_eq (f32 : Rat → Rat) (fs : String → Option Tree) (D : Evoked)
    (hfn : D.info.filename = none)
    (hdev : D.info.dev_head_t = none)
    (hctf : D.info.ctf_head_t = none)
    (hnc0 : 0 ≤ D.info.nchan)
    (hchs : (D.info.chs.length : Int) = D.info.nchan)
    (hrows : (D.data.length : Int) = D.info.nchan)
    (hrect : ∀ r ∈ D.data, r.length = ncols D.data) :
    write_evoked f32 fs D
      = ⟨eventsOf f32 D,
         { D with info := { D.info with chs := renumberChs D.info } }, none⟩ := by
  have hcp : copy_blocks fs D.info = .ok ⟨[], false, false⟩ := by
    rw [copy_blocks, hfn]
  have hct : coord_trans_step f32 D.info false = .ok [] := by
    rw [coord_trans_step]
    simp [hdev, hctf]
  have hshort : ¬ D.info.chs.length < D.info.nchan.toNat := by omega
  have hneg : ¬ D.info.nchan < 0 := by omega
  have hdot : npDot (mkDecal D.info) D.data = some (decalRaw D) := by
    rw [mkDecal, npDot_diag _ _ (by simp; omega) hrect]
    rfl
  simp only [write_evoked, Evoked.save, hcp, hct, hdot, if_neg hshort, if_neg hneg]
  simp [eventsOf, renumberChs, write_proj, write_ctf_comp, List.append_assoc]

theorem write_float_kind (f32 : Rat → Rat) (k : Int) (q : Rat) :
    (write_float f32 k q).kind = k := rfl

theorem write_int_kind (k n : Int) : (write_int k n).kind = k := rfl

theorem write_id_kind (k : Int) : (write_id k).kind = k := rfl

theorem write_string_kind (k : Int) (s : String) : (write_string k s).kind = k := rfl

theorem write_name_list_kind (k : Int) (l : List String) :
    (write_name_list k l).kind = k := rfl

theorem write_ch_info_kind (f32 : Rat → Rat) (ch : ChInfo) :
    (write_ch_info f32 ch).kind = FIFF_CH_INFO := rfl

theorem write_dig_point_kind (f32 : Rat → Rat) (d : DigPoint) :
    (write_dig_point f32 d).kind = FIFF_DIG_POINT := rfl

theorem write_float_matrix_kind (f32 : Rat → Rat) (k : Int) (m : Mat) :
    (write_float_matrix f32 k m).kind = k := rfl

theorem goTags_leaf_block (k : Int) (l : List WTag) (rest : List WTag)
    (cur : Frame) (stack : List Frame) (hk : i32 k = k)
    (hflat : ∀ tg ∈ l, tg.kind ≠ FIFF_BLOCK_START ∧ tg.kind ≠ FIFF_BLOCK_END) :
    goTags (start_block k :: (l ++ (end_block k :: rest))) cur stack
      = goTags rest (cur.addChild (.node k (l.map entryOf) [])) stack := by
  rw [goTags_start k _ _ _ hk, goTags_flat_seg l _ _ _ hflat, goTags_end]
  simp [Frame.close, Frame.addChild]

theorem goTags_opt_isotrak (f32 : Rat → Rat) (o : Option (List DigPoint))
    (rest : List WTag) (cur : Frame) (stack : List Frame) :
    goTags ((match o with
      | some dig => start_block FIFFB_ISOTRAK ::
          (dig.map (write_dig_point f32) ++ [end_block FIFFB_ISOTRAK])
      | none => []) ++ rest) cur stack
    = goTags rest { cur with kids := cur.kids ++ (match o with
        | some dig =>
            [Tree.node FIFFB_ISOTRAK ((dig.map (write_dig_point f32)).map entryOf) []]
        | none => []) } stack := by
  cases o with
  | none => simp
  | some dig =>
    rw [show (start_block FIFFB_ISOTRAK ::
        (dig.map (write_dig_point f32) ++ [end_block FIFFB_ISOTRAK])) ++ rest
      = start_block FIFFB_ISOTRAK ::
        (dig.map (write_dig_point f32) ++ (end_block FIFFB_ISOTRAK :: rest)) from by
      simp]
    rw [goTags_leaf_block _ _ _ _ _ (by decide) (by
      intro tg htg
      obtain ⟨d, -, rfl⟩ := List.mem_map.mp htg
      exact ⟨by simp [write_dig_point_kind, FIFF_DIG_POINT, FIFF_BLOCK_START],
             by simp [write_dig_point_kind, FIFF_DIG_POINT, FIFF_BLOCK_END]⟩)]
    rfl

theorem goTags_opt_bads (bads : List String) (rest : List WTag)
    (cur : Frame) (stack : List Frame) :
    goTags ((if bads.length > 0 then
        [start_block FIFFB_MNE_BAD_CHANNELS,
         write_name_list FIFF_MNE_CH_NAME_LIST bads,
         end_block FIFFB_MNE_BAD_CHANNELS] else []) ++ rest) cur stack
    = goTags rest { cur with kids := cur.kids ++ (if bads.length > 0 then
        [Tree.node FIFFB_MNE_BAD_CHANNELS
          [entryOf (write_name_list FIFF_MNE_CH_NAME_LIST bads)] []] else []) } stack := by
  by_cases hb : bads.length > 0
  · rw [if_pos hb, if_pos hb]
    rw [show ([start_block FIFFB_MNE_BAD_CHANNELS,
        write_name_list FIFF_MNE_CH_NAME_LIST bads,
        end_block FIFFB_MNE_BAD_CHANNELS] : List WTag) ++ rest
      = start_block FIFFB_MNE_BAD_CHANNELS ::
        ([write_name_list FIFF_MNE_CH_NAME_LIST bads]
          ++ (end_block FIFFB_MNE_BAD_CHANNELS :: rest)) from by simp]
    rw [goTags_leaf_block _ _ _ _ _ (by decide) (by
      intro tg htg
      rw [List.mem_singleton] at htg
      subst htg
      exact ⟨by simp [write_name_list_kind, FIFF_MNE_CH_NAME_LIST, FIFF_BLOCK_START],
             by simp [write_name_list_kind, FIFF_MNE_CH_NAME_LIST, FIFF_BLOCK_END]⟩)]
    rfl
  · rw [if_neg hb, if_neg hb]
    simp

theorem chans_flat (f32 : Rat → Rat) (l : List ChInfo) :
    ∀ tg ∈ l.mapIdx (fun k ch => write_ch_info f32 { ch with scanno := (k : Int) }),
      tg.kind ≠ FIFF_BLOCK_START ∧ tg.kind ≠ FIFF_BLOCK_END := by
  intro tg htg
  rw [List.mapIdx_eq_enum_map] at htg
  obtain ⟨⟨k, ch⟩, -, rfl⟩ := List.mem_map.mp htg
  exact ⟨by simp [Function.uncurry, write_ch_info_kind, FIFF_CH_INFO, FIFF_BLOCK_START],
         by simp [Function.uncurry, write_ch_info_kind, FIFF_CH_INFO, FIFF_BLOCK_END]⟩

set_option maxRecDepth 8000 in
theorem parse_events (f32 : Rat → Rat) (D : Evoked) :
    makeTree (eventsOf f32 D) = parsedRootOf f32 D := by
  have hch := chans_flat f32 (D.info.chs.take D.info.nchan.toNat)
  have hmid : ∀ tg ∈ (match D.info.meas_id with
      | some _ => [write_id FIFF_PARENT_BLOCK_ID]
      | none => ([] : List WTag)),
      tg.kind ≠ FIFF_BLOCK_START ∧ tg.kind ≠ FIFF_BLOCK_END := by
    cases D.info.meas_id <;>
      simp [write_id, FIFF_PARENT_BLOCK_ID, FIFF_BLOCK_START, FIFF_BLOCK_END]
  have hmd : ∀ tg ∈ (match D.info.meas_date with
      | some d => [write_int FIFF_MEAS_DATE d]
      | none => ([] : List WTag)),
      tg.kind ≠ FIFF_BLOCK_START ∧ tg.kind ≠ FIFF_BLOCK_END := by
    cases D.info.meas_date with
    | none => intro tg htg; simp at htg
    | some d =>
      intro tg htg
      rw [List.mem_singleton] at htg
      subst htg
      exact ⟨by simp [write_int, FIFF_MEAS_DATE, FIFF_BLOCK_START],
             by simp [write_int, FIFF_MEAS_DATE, FIFF_BLOCK_END]⟩
  have hcmt : ∀ tg ∈ (if D.comment.length > 0
      then [write_string FIFF_COMMENT D.comment] else ([] : List WTag)),
      tg.kind ≠ FIFF_BLOCK_START ∧ tg.kind ≠ FIFF_BLOCK_END := by
    by_cases hc : D.comment.length > 0
    · rw [if_pos hc]
      intro tg htg
      rw [List.mem_singleton] at htg
      subst htg
      exact ⟨by simp [write_string, FIFF_COMMENT, FIFF_BLOCK_START],
             by simp [write_string, FIFF_COMMENT, FIFF_BLOCK_END]⟩
    · rw [if_neg hc]
      intro tg htg
      simp at htg
  have hproj : ∀ tg ∈ D.info.projs.map (write_int FIFF_PROJ_ITEM),
      tg.kind ≠ FIFF_BLOCK_START ∧ tg.kind ≠ FIFF_BLOCK_END := by
    intro tg htg
    obtain ⟨p, -, rfl⟩ := List.mem_map.mp htg
    exact ⟨by simp [write_int, FIFF_PROJ_ITEM, FIFF_BLOCK_START],
           by simp [write_int, FIFF_PROJ_ITEM, FIFF_BLOCK_END]⟩
  have hcomp : ∀ tg ∈ (D.info.comps.getD []).map (write_int FIFF_CTF_COMP_DATA),
      tg.kind ≠ FIFF_BLOCK_START ∧ tg.kind ≠ FIFF_BLOCK_END := by
    intro tg htg
    obtain ⟨p, -, rfl⟩ := List.mem_map.mp htg
    exact ⟨by simp [write_int, FIFF_CTF_COMP_DATA, FIFF_BLOCK_START],
           by simp [write_int, FIFF_CTF_COMP_DATA, FIFF_BLOCK_END]⟩
  rw [makeTree]
  simp only [eventsOf, List.append_assoc, List.cons_append, List.nil_append]
  rw [goTags_flat_seg start_file_tags _ _ _ (by decide)]
  rw [goTags_start FIFFB_MEAS _ _ _ (by decide)]
  rw [goTags_flat (write_id FIFF_BLOCK_ID) _ _ _ (by decide) (by decide)]
  rw [goTags_flat_seg _ _ _ _ hmid]
  rw [goTags_start FIFFB_MEAS_INFO _ _ _ (by decide)]
  rw [goTags_flat (write_float f32 FIFF_SFREQ D.info.sfreq) _ _ _
    (by simp [write_float, FIFF_SFREQ, FIFF_BLOCK_START])
    (by simp [write_float, FIFF_SFREQ, FIFF_BLOCK_END])]
  rw [goTags_flat (write_float f32 FIFF_HIGHPASS D.info.highpass) _ _ _
    (by simp [write_float, FIFF_HIGHPASS, FIFF_BLOCK_START])
    (by simp [write_float, FIFF_HIGHPASS, FIFF_BLOCK_END])]
  rw [goTags_flat (write_float f32 FIFF_LOWPASS D.info.lowpass) _ _ _
    (by simp [write_float, FIFF_LOWPASS, FIFF_BLOCK_START])
    (by simp [write_float, FIFF_LOWPASS, FIFF_BLOCK_END])]
  rw [goTags_flat (write_int FIFF_NCHAN D.info.nchan) _ _ _
    (by simp [write_int, FIFF_NCHAN, FIFF_BLOCK_START])
    (by simp [write_int, FIFF_NCHAN, FIFF_BLOCK_END])]
  rw [goTags_flat_seg _ _ _ _ hmd]
  rw [goTags_flat_seg _ _ _ _ hch]
  rw [goTags_opt_isotrak f32 D.info.dig]
  rw [goTags_leaf_block FIFFB_PROJ (D.info.projs.map (write_int FIFF_PROJ_ITEM)) _ _ _
    (by decide) hproj]
  rw [goTags_leaf_block FIFFB_MNE_CTF_COMP
    ((D.info.comps.getD []).map (write_int FIFF_CTF_COMP_DATA)) _ _ _
    (by decide) hcomp]
  rw [goTags_opt_bads D.info.bads]
  rw [goTags_end]
  rw [goTags_start FIFFB_PROCESSED_DATA _ _ _ (by decide)]
  rw [goTags_start FIFFB_EVOKED _ _ _ (by decide)]
  rw [goTags_flat_seg _ _ _ _ hcmt]
  rw [goTags_flat (write_int FIFF_FIRST_SAMPLE D.first) _ _ _
    (by simp [write_int, FIFF_FIRST_SAMPLE, FIFF_BLOCK_START])
    (by simp [write_int, FIFF_FIRST_SAMPLE, FIFF_BLOCK_END])]
  rw [goTags_flat (write_int FIFF_LAST_SAMPLE D.last) _ _ _
    (by simp [write_int, FIFF_LAST_SAMPLE, FIFF_BLOCK_START])
    (by simp [write_int, FIFF_LAST_SAMPLE, FIFF_BLOCK_END])]
  rw [goTags_start FIFFB_ASPECT _ _ _ (by decide)]
  rw [goTags_flat (write_int FIFF_ASPECT_KIND D.aspect_kind) _ _ _
    (by simp [write_int, FIFF_ASPECT_KIND, FIFF_BLOCK_START])
    (by simp [write_int, FIFF_ASPECT_KIND, FIFF_BLOCK_END])]
  rw [goTags_flat (write_int FIFF_NAVE D.nave) _ _ _
    (by simp [write_int, FIFF_NAVE, FIFF_BLOCK_START])
    (by simp [write_int, FIFF_NAVE, FIFF_BLOCK_END])]
  rw [goTags_flat (write_float_matrix f32 FIFF_EPOCH (decalRaw D)) _ _ _
    (by simp [write_float_matrix, FIFF_EPOCH, FIFF_BLOCK_START])
    (by simp [write_float_matrix, FIFF_EPOCH, FIFF_BLOCK_END])]
  rw [goTags_end, goTags_end, goTags_end, goTags_end]
  rw [goTags_flat end_file_tag _ _ _ (by decide) (by decide)]
  rw [goTags]
  simp [Frame.close, Frame.addEntry, Frame.addChild, parsedRootOf, measTreeOf,
    miTreeOf, evokedTreeOf, aspTreeOf, entryOf, List.map_append]

/-! ### Locating blocks in the parsed tree -/

theorem miChildren_find (f32 : Rat → Rat) (info : MeasInfo) (k : Int)
    (h2 : ¬ FIFFB_ISOTRAK = k) (h3 : ¬ FIFFB_PROJ = k)
    (h4 : ¬ FIFFB_MNE_CTF_COMP = k) (h5 : ¬ FIFFB_MNE_BAD_CHANNELS = k) :
    forest_find ((match info.dig with
      | some dig =>
          [Tree.node FIFFB_ISOTRAK ((dig.map (write_dig_point f32)).map entryOf) []]
      | none => [])
     ++ [Tree.node FIFFB_PROJ ((info.projs.map (write_int FIFF_PROJ_ITEM)).map entryOf) [],
         Tree.node FIFFB_MNE_CTF_COMP
           (((info.comps.getD []).map (write_int FIFF_CTF_COMP_DATA)).map entryOf) []]
     ++ (if info.bads.length > 0 then
          [Tree.node FIFFB_MNE_BAD_CHANNELS
            [entryOf (write_name_list FIFF_MNE_CH_NAME_LIST info.bads)] []]
         else [])) k = [] := by
  cases info.dig <;> by_cases hb : info.bads.length > 0 <;>
    simp [forest_find, dir_tree_find, h2, h3, h4, h5, hb]

theorem miTree_find (f32 : Rat → Rat) (info : MeasInfo) (k : Int)
    (h1 : ¬ FIFFB_MEAS_INFO = k) (h2 : ¬ FIFFB_ISOTRAK = k) (h3 : ¬ FIFFB_PROJ = k)
    (h4 : ¬ FIFFB_MNE_CTF_COMP = k) (h5 : ¬ FIFFB_MNE_BAD_CHANNELS = k) :
    dir_tree_find (miTreeOf f32 info) k = [] := by
  rw [miTreeOf, dir_tree_find, if_neg h1]
  rw [miChildren_find f32 info k h2 h3 h4 h5]
  rfl

theorem evoked_find (f32 : Rat → Rat) (D : Evoked) (k : Int)
    (h1 : ¬ FIFFB_EVOKED = k) (h2 : ¬ FIFFB_ASPECT = k) :
    dir_tree_find (evokedTreeOf f32 D) k = [] := by
  simp [evokedTreeOf, aspTreeOf, dir_tree_find, forest_find, h1, h2]

theorem find_meas (f32 : Rat → Rat) (D : Evoked) :
    dir_tree_find (parsedRootOf f32 D) FIFFB_MEAS = [measTreeOf f32 D] := by
  rw [parsedRootOf, dir_tree_find,
    if_neg (show ¬ FIFFB_ROOT = FIFFB_MEAS from by decide)]
  rw [forest_find, forest_find, measTreeOf, dir_tree_find, if_pos rfl]
  rw [forest_find, forest_find, forest_find]
  rw [miTree_find f32 D.info FIFFB_MEAS (by decide) (by decide) (by decide)
    (by decide) (by decide)]
  rw [show dir_tree_find (Tree.node FIFFB_PROCESSED_DATA [] [evokedTreeOf f32 D])
      FIFFB_MEAS = forest_find [evokedTreeOf f32 D] FIFFB_MEAS from by
    rw [dir_tree_find, if_neg (show ¬ FIFFB_PROCESSED_DATA = FIFFB_MEAS from by decide)]
    rfl]
  rw [forest_find, forest_find,
    evoked_find f32 D FIFFB_MEAS (by decide) (by decide)]
  rfl

theorem find_mi (f32 : Rat → Rat) (D : Evoked) :
    dir_tree_find (measTreeOf f32 D) FIFFB_MEAS_INFO = [miTreeOf f32 D.info] := by
  rw [measTreeOf, dir_tree_find,
    if_neg (show ¬ FIFFB_MEAS = FIFFB_MEAS_INFO from by decide)]
  rw [forest_find, forest_find, forest_find]
  rw [show dir_tree_find (miTreeOf f32 D.info) FIFFB_MEAS_INFO
      = [miTreeOf f32 D.info] from by
    rw [miTreeOf, dir_tree_find, if_pos rfl]
    rw [miChildren_find f32 D.info FIFFB_MEAS_INFO (by decide) (by decide)
      (by decide) (by decide)]
    rfl]
  rw [show dir_tree_find (Tree.node FIFFB_PROCESSED_DATA [] [evokedTreeOf f32 D])
      FIFFB_MEAS_INFO = forest_find [evokedTreeOf f32 D] FIFFB_MEAS_INFO from by
    rw [dir_tree_find,
      if_neg (show ¬ FIFFB_PROCESSED_DATA = FIFFB_MEAS_INFO from by decide)]
    rfl]
  rw [forest_find, forest_find,
    evoked_find f32 D FIFFB_MEAS_INFO (by decide) (by decide)]
  rfl

theorem find_proc (f32 : Rat → Rat) (D : Evoked) :
    dir_tree_find (measTreeOf f32 D) FIFFB_PROCESSED_DATA
      = [Tree.node FIFFB_PROCESSED_DATA [] [evokedTreeOf f32 D]] := by
  rw [measTreeOf, dir_tree_find,
    if_neg (show ¬ FIFFB_MEAS = FIFFB_PROCESSED_DATA from by decide)]
  rw [forest_find, forest_find, forest_find]
  rw [miTree_find f32 D.info FIFFB_PROCESSED_DATA (by decide) (by decide) (by decide)
    (by decide) (by decide)]
  rw [show dir_tree_find (Tree.node FIFFB_PROCESSED_DATA [] [evokedTreeOf f32 D])
      FIFFB_PROCESSED_DATA
      = Tree.node FIFFB_PROCESSED_DATA [] [evokedTreeOf f32 D]
        :: forest_find [evokedTreeOf f32 D] FIFFB_PROCESSED_DATA from by
    rw [dir_tree_find, if_pos rfl]
    rfl]
  rw [forest_find, forest_find,
    evoked_find f32 D FIFFB_PROCESSED_DATA (by decide) (by decide)]
  rfl

theorem find_evoked (f32 : Rat → Rat) (D : Evoked) :
    dir_tree_find (measTreeOf f32 D) FIFFB_EVOKED = [evokedTreeOf f32 D] := by
  rw [measTreeOf, dir_tree_find,
    if_neg (show ¬ FIFFB_MEAS = FIFFB_EVOKED from by decide)]
  rw [forest_find, forest_find, forest_find]
  rw [miTree_find f32 D.info FIFFB_EVOKED (by decide) (by decide) (by decide)
    (by decide) (by decide)]
  rw [show dir_tree_find (Tree.node FIFFB_PROCESSED_DATA [] [evokedTreeOf f32 D])
      FIFFB_EVOKED = forest_find [evokedTreeOf f32 D] FIFFB_EVOKED from by
    rw [dir_tree_find, if_neg (show ¬ FIFFB_PROCESSED_DATA = FIFFB_EVOKED from by decide)]
    rfl]
  rw [forest_find, forest_find]
  rw [show dir_tree_find (evokedTreeOf f32 D) FIFFB_EVOKED = [evokedTreeOf f32 D] from by
    rw [evokedTreeOf, dir_tree_find, if_pos rfl]
    rfl]
  rfl

theorem find_aspect (f32 : Rat → Rat) (D : Evoked) :
    dir_tree_find (evokedTreeOf f32 D) FIFFB_ASPECT = [aspTreeOf f32 D] := by
  rw [evokedTreeOf, dir_tree_find,
    if_neg (show ¬ FIFFB_EVOKED = FIFFB_ASPECT from by decide)]
  rw [forest_find, forest_find]
  rw [show dir_tree_find (aspTreeOf f32 D) FIFFB_ASPECT = [aspTreeOf f32 D] from by
    rw [aspTreeOf, dir_tree_find, if_pos rfl]
    rfl]
  rfl

theorem find_smsh (f32 : Rat → Rat) (D : Evoked) :
    dir_tree_find (evokedTreeOf f32 D) FIFFB_SMSH_ASPECT = [] :=
  evoked_find f32 D FIFFB_SMSH_ASPECT (by decide) (by decide)

/-! ### Recovering the measurement info from the parsed tree -/

theorem mi_fold_chdata (cs : List ChInfo) :
    ∀ s : MIAcc,
    (cs.map (fun c => (⟨FIFF_CH_INFO, .chData c⟩ : DirEntry))).foldl mi_step s
      = { s with chs := s.chs ++ cs } := by
  induction cs with
  | nil => intro s; simp
  | cons c cs ih =>
    intro s
    rw [List.map_cons, List.foldl_cons]
    rw [show mi_step s ⟨FIFF_CH_INFO, .chData c⟩ = { s with chs := s.chs ++ [c] } from rfl]
    rw [ih]
    simp

theorem chans_entries (f32 : Rat → Rat) (l : List ChInfo) :
    (l.mapIdx (fun k ch => write_ch_info f32 { ch with scanno := (k : Int) })).map entryOf
      = (l.mapIdx (fun k ch => chWire f32 { ch with scanno := (k : Int) })).map
          (fun c => (⟨FIFF_CH_INFO, .chData c⟩ : DirEntry)) := by
  simp only [List.mapIdx_eq_enum_map, List.map_map]
  apply List.map_congr_left
  intro p hp
  cases p
  rfl

theorem read_meas_info_parsed (f32 : Rat → Rat) (D : Evoked) :
    read_meas_info (parsedRootOf f32 D)
      = .ok ({ infoRead f32 D.info with meas_date := D.info.meas_date.map i32 },
             measTreeOf f32 D) := by
  have hdir : (miTreeOf f32 D.info).directory
      = ([write_float f32 FIFF_SFREQ D.info.sfreq,
          write_float f32 FIFF_HIGHPASS D.info.highpass,
          write_float f32 FIFF_LOWPASS D.info.lowpass,
          write_int FIFF_NCHAN D.info.nchan].map entryOf)
        ++ ((match D.info.meas_date with
            | some d => [write_int FIFF_MEAS_DATE d]
            | none => []).map entryOf)
        ++ (((D.info.chs.take D.info.nchan.toNat).mapIdx
            (fun k ch => write_ch_info f32 { ch with scanno := (k : Int) })).map entryOf) := by
    rw [miTreeOf]
    rw [show Tree.directory (Tree.node FIFFB_MEAS_INFO
        (([write_float f32 FIFF_SFREQ D.info.sfreq,
           write_float f32 FIFF_HIGHPASS D.info.highpass,
           write_float f32 FIFF_LOWPASS D.info.lowpass,
           write_int FIFF_NCHAN D.info.nchan]
          ++ (match D.info.meas_date with
              | some d => [write_int FIFF_MEAS_DATE d]
              | none => [])
          ++ (D.info.chs.take D.info.nchan.toNat).mapIdx
              (fun k ch => write_ch_info f32 { ch with scanno := (k : Int) })).map entryOf)
        ((match D.info.dig with
          | some dig =>
              [Tree.node FIFFB_ISOTRAK ((dig.map (write_dig_point f32)).map entryOf) []]
          | none => [])
         ++ [Tree.node FIFFB_PROJ
              ((D.info.projs.map (write_int FIFF_PROJ_ITEM)).map entryOf) [],
             Tree.node FIFFB_MNE_CTF_COMP
               (((D.info.comps.getD []).map (write_int FIFF_CTF_COMP_DATA)).map entryOf) []]
         ++ (if D.info.bads.length > 0 then
              [Tree.node FIFFB_MNE_BAD_CHANNELS
                [entryOf (write_name_list FIFF_MNE_CH_NAME_LIST D.info.bads)] []]
             else [])))
      = ([write_float f32 FIFF_SFREQ D.info.sfreq,
          write_float f32 FIFF_HIGHPASS D.info.highpass,
          write_float f32 FIFF_LOWPASS D.info.lowpass,
          write_int FIFF_NCHAN D.info.nchan]
         ++ (match D.info.meas_date with
             | some d => [write_int FIFF_MEAS_DATE d]
             | none => [])
         ++ (D.info.chs.take D.info.nchan.toNat).mapIdx
             (fun k ch => write_ch_info f32 { ch with scanno := (k : Int) })).map entryOf
      from rfl]
    rw [List.map_append, List.map_append]
  have hS : List.foldl mi_step ⟨none, none, none, none, none, []⟩
      (miTreeOf f32 D.info).directory
      = ⟨some (f32 D.info.sfreq), some (i32 D.info.nchan), some (f32 D.info.highpass),
         some (f32 D.info.lowpass), D.info.meas_date.map i32,
         (D.info.chs.take D.info.nchan.toNat).mapIdx
           (fun k ch => chWire f32 { ch with scanno := (k : Int) })⟩ := by
    rw [hdir, List.foldl_append, List.foldl_append]
    rw [show List.foldl mi_step ⟨none, none, none, none, none, []⟩
        ([write_float f32 FIFF_SFREQ D.info.sfreq,
          write_float f32 FIFF_HIGHPASS D.info.highpass,
          write_float f32 FIFF_LOWPASS D.info.lowpass,
          write_int FIFF_NCHAN D.info.nchan].map entryOf)
        = ⟨some (f32 D.info.sfreq), some (i32 D.info.nchan), some (f32 D.info.highpass),
           some (f32 D.info.lowpass), none, []⟩ from rfl]
    cases hmd : D.info.meas_date with
    | none =>
      simp only [List.map_nil, List.foldl_nil, Option.map_none]
      rw [chans_entries, mi_fold_chdata]
      rfl
    | some d =>
      simp only [List.map_cons, List.map_nil, List.foldl_cons, List.foldl_nil]
      rw [show mi_step ⟨some (f32 D.info.sfreq), some (i32 D.info.nchan),
          some (f32 D.info.highpass), some (f32 D.info.lowpass), none, []⟩
          (entryOf (write_int FIFF_MEAS_DATE d))
        = ⟨some (f32 D.info.sfreq), some (i32 D.info.nchan), some (f32 D.info.highpass),
           some (f32 D.info.lowpass), some (i32 d), []⟩ from rfl]
      rw [chans_entries, mi_fold_chdata]
      rfl
  simp only [read_meas_info, find_meas, find_mi, hS]
  simp [infoRead]

/-! ### Assembling the parsed epoch -/

theorem transpose_one (m : Mat) (h1 : m.length = 1) (h2 : ncols m = 1)
    (hrect : ∀ r ∈ m, r.length = ncols m) : transposeMat m = m := by
  obtain ⟨r, hm⟩ : ∃ r, m = [r] := by
    cases m with
    | nil => simp at h1
    | cons r t =>
      cases t with
      | nil => exact ⟨r, rfl⟩
      | cons r2 t2 => simp at h1
  subst hm
  have hr : r.length = 1 := by
    have := hrect r (by simp)
    rw [h2] at this
    exact this
  obtain ⟨x, hx⟩ : ∃ x, r = [x] := by
    cases r with
    | nil => simp at hr
    | cons a t =>
      cases t with
      | nil => exact ⟨a, rfl⟩
      | cons b t2 => simp at hr
  subst hx
  rfl

theorem mem_zipWith_decomp {α β γ : Type _} {f : α → β → γ} :
    ∀ {l₁ : List α} {l₂ : List β} {c : γ}, c ∈ List.zipWith f l₁ l₂ →
      ∃ a b, a ∈ l₁ ∧ b ∈ l₂ ∧ c = f a b := by
  intro l₁
  induction l₁ with
  | nil => intro l₂ c h; simp at h
  | cons a t ih =>
    intro l₂ c h
    cases l₂ with
    | nil => simp at h
    | cons b t₂ =>
      rw [List.zipWith_cons_cons] at h
      rcases List.mem_cons.mp h with h | h
      · exact ⟨a, b, by simp, by simp, h⟩
      · obtain ⟨a1, b1, ha, hb, rfl⟩ := ih h
        exact ⟨a1, b1, by simp [ha], by simp [hb], rfl⟩

theorem decal_rows (g : Rat → Rat) (w : Nat) (cs : List Rat) (m : Mat)
    (hm : ∀ r ∈ m, r.length = w) :
    ∀ r ∈ (List.zipWith (fun c row => row.map (fun x => c * x)) cs m).map
      (fun r => r.map g), r.length = w := by
  intro r hr
  obtain ⟨r0, hr0, rfl⟩ := List.mem_map.mp hr
  rw [List.length_map]
  obtain ⟨c1, r1, -, hmem, rfl⟩ := mem_zipWith_decomp hr0
  rw [List.length_map]
  exact hm r1 hmem

theorem data_roundtrip_form (f32 : Rat → Rat) :
    ∀ (chs : List ChInfo) (data : Mat),
    List.zipWith (fun c row => row.map (fun x => c * x)) (chs.map (fun p => f32 p.cal))
      ((List.zipWith (fun c row => row.map (fun x => c * x))
          (chs.map (fun p => 1 / p.cal)) data).map (fun r => r.map f32))
    = List.zipWith (fun p row => row.map (fun x => f32 p.cal * f32 (1 / p.cal * x)))
        chs data := by
  intro chs
  induction chs with
  | nil => intro data; rfl
  | cons p t ih =>
    intro data
    cases data with
    | nil => rfl
    | cons r rs =>
      simp only [List.map_cons, List.zipWith_cons_cons, List.map_map]
      rw [ih rs]
      rfl

theorem mapIdx_getD_cal (f32 : Rat → Rat) :
    ∀ (l : List ChInfo) (g : Nat → ChInfo → ChInfo), (∀ k ch, (g k ch).cal = ch.cal) →
    ∀ (k : Nat), k < l.length →
    ((l.mapIdx (fun k ch => chWire f32 (g k ch))).getD k chZero).cal
      = f32 ((l.getD k chZero).cal) := by
  intro l
  induction l with
  | nil => intro g hg k hk; simp at hk
  | cons a t ih =>
    intro g hg k hk
    rw [List.mapIdx_cons]
    cases k with
    | zero =>
      rw [List.getD_cons_zero, List.getD_cons_zero]
      rw [show (chWire f32 (g 0 a)).cal = f32 ((g 0 a).cal) from rfl]
      rw [hg 0 a]
    | succ k2 =>
      rw [List.getD_cons_succ, List.getD_cons_succ]
      exact ih (fun i => g (i + 1)) (fun k ch => hg (k + 1) ch) k2 (by simpa using hk)

theorem finishAssembly_parsed (f32 : Rat → Rat) (info0 : MeasInfo) (c : String)
    (nave ak : Int) (D : Evoked)
    (hnchan : info0.nchan = D.info.nchan)
    (hchs0 : info0.chs = (D.info.chs.take D.info.nchan.toNat).mapIdx
        (fun k ch => chWire f32 { ch with scanno := (k : Int) }))
    (hsf : info0.sfreq = f32 D.info.sfreq)
    (hnc0 : 0 < D.info.nchan)
    (hchs : (D.info.chs.length : Int) = D.info.nchan)
    (hrows : (D.data.length : Int) = D.info.nchan)
    (hrect : ∀ r ∈ D.data, r.length = ncols D.data)
    (hcols : (ncols D.data : Int) = D.last - D.first + 1) :
    finishAssembly info0 c nave ak D.first D.last
      [.matrixData ((decalRaw D).map (fun r => r.map f32))]
      = .ok { info := info0, nave := nave, aspect_kind := ak, first := D.first,
              last := D.last, comment := c,
              times := (List.range (D.last + 1 - D.first).toNat).map
                (fun i : Nat => ((D.first + (i : Int) : Int) : Rat) / f32 D.info.sfreq),
              data := List.zipWith (fun p row => row.map
                (fun x => f32 p.cal * f32 (1 / p.cal * x))) D.info.chs D.data } := by
  have hNn : D.info.nchan.toNat = D.info.chs.length := by omega
  have hdl : D.data.length = D.info.chs.length := by omega
  have hcals1 : (List.range D.info.nchan.toNat).map
      (fun k => 1 / (D.info.chs.getD k chZero).cal)
      = D.info.chs.map (fun p => 1 / p.cal) := by
    rw [hNn]
    exact range_map_getD D.info.chs chZero (fun p => 1 / p.cal)
  have hdecal : decalRaw D = List.zipWith (fun c row => row.map (fun x => c * x))
      (D.info.chs.map (fun p => 1 / p.cal)) D.data := by
    rw [decalRaw, hcals1]
  have hmlen : ((decalRaw D).map (fun r => r.map f32)).length = D.info.chs.length := by
    rw [hdecal]
    simp [hdl]
  have hrect2 : ∀ r ∈ (decalRaw D).map (fun r => r.map f32), r.length = ncols D.data := by
    rw [hdecal]
    exact decal_rows f32 (ncols D.data) _ D.data hrect
  have hnc2 : ncols ((decalRaw D).map (fun r => r.map f32)) = ncols D.data := by
    cases hm : (decalRaw D).map (fun r => r.map f32) with
    | nil =>
      have := hmlen
      rw [hm] at this
      simp at this
      omega
    | cons r t =>
      have hr : r ∈ (decalRaw D).map (fun r => r.map f32) := by rw [hm]; simp
      have := hrect2 r hr
      simp [ncols, this]
  have hrect3 : ∀ r ∈ (decalRaw D).map (fun r => r.map f32),
      r.length = ncols ((decalRaw D).map (fun r => r.map f32)) := by
    intro r hr
    rw [hnc2]
    exact hrect2 r hr
  have hraw : rawAllData info0.nchan [.matrixData ((decalRaw D).map (fun r => r.map f32))]
      = .ok ((decalRaw D).map (fun r => r.map f32)) := by
    simp only [rawAllData, List.length_cons, List.length_nil]
    rw [if_neg (by simp)]
    rw [if_pos trivial]
    simp only [List.getD_cons_zero, epochMat, exceptPure, exceptBind_ok]
    by_cases hone : ncols ((decalRaw D).map (fun r => r.map f32)) = 1 ∧ info0.nchan = 1
    · rw [if_pos hone]
      rw [transpose_one _ (by rw [hmlen]; have h1 := hone.2; omega) hone.1 hrect3]
    · rw [if_neg hone]
  have hbuild : buildAllData info0.nchan
      [.matrixData ((decalRaw D).map (fun r => r.map f32))] (D.last - D.first + 1)
      = .ok ((decalRaw D).map (fun r => r.map f32)) := by
    simp only [buildAllData, hraw, exceptBind_ok]
    rw [if_neg (by rw [hnc2]; omega)]
    rfl
  have hS0 : info0.chs.length = D.info.chs.length := by
    rw [hchs0]
    simp [hNn]
  have hcals : (List.range info0.nchan.toNat).map (fun k => (info0.chs.getD k chZero).cal)
      = D.info.chs.map (fun p => f32 p.cal) := by
    rw [hchs0, hnchan, hNn, List.take_length]
    calc List.map (fun k => ((List.mapIdx
            (fun k ch => chWire f32 { ch with scanno := (k : Int) })
            D.info.chs).getD k chZero).cal) (List.range D.info.chs.length)
        = List.map (fun k => (fun p : ChInfo => f32 p.cal) (D.info.chs.getD k chZero))
            (List.range D.info.chs.length) := by
          apply List.map_congr_left
          intro k hk
          rw [List.mem_range] at hk
          exact mapIdx_getD_cal f32 D.info.chs (fun k ch => { ch with scanno := (k : Int) })
            (fun _ _ => rfl) k hk
      _ = List.map (fun p : ChInfo => f32 p.cal) D.info.chs :=
          range_map_getD D.info.chs chZero (fun p => f32 p.cal)
  simp only [finishAssembly, hbuild, exceptBind_ok]
  rw [if_neg (by omega)]
  rw [hcals]
  rw [npDot_diag _ _ (by rw [hmlen, List.length_map]) hrect3]
  simp only [exceptPure, exceptBind_ok]
  rw [hdecal, data_roundtrip_form]
  rw [hsf]

theorem optIf_getD {α : Type _} (c : Prop) [Decidable c] (a b : α) :
    (if c then some a else none).getD b = if c then a else b := by
  split <;> rfl

theorem identifySets_parsed (f32 : Rat → Rat) (D : Evoked) :
    identifySets [evokedTreeOf f32 D] none 0 []
      = .ok ([⟨[aspTreeOf f32 D], 1⟩], 1) := by
  simp [identifySets, find_aspect, find_smsh]

theorem selectUnit_parsed (f32 : Rat → Rat) (D : Evoked) :
    selectUnit ([evokedTreeOf f32 D].zip [⟨[aspTreeOf f32 D], 1⟩]) 0 0
      = .ok (evokedTreeOf f32 D, aspTreeOf f32 D) := by
  rw [List.zip_cons_cons, selectUnit, if_pos (by norm_num)]
  rfl

theorem evoked_scan_parsed (f32 : Rat → Rat) (D : Evoked) :
    List.foldlM ev_scan_step (⟨0, -1, [], none, none, none⟩ : EvScan)
      (evokedTreeOf f32 D).directory
      = .ok ⟨0, -1, [], if D.comment.length > 0 then some D.comment else none,
             some (i32 D.first), some (i32 D.last)⟩ := by
  by_cases hc : D.comment.length > 0
  · rw [show (evokedTreeOf f32 D).directory
        = [entryOf (write_string FIFF_COMMENT D.comment),
           entryOf (write_int FIFF_FIRST_SAMPLE D.first),
           entryOf (write_int FIFF_LAST_SAMPLE D.last)] from by
      rw [evokedTreeOf]
      rw [show Tree.directory (Tree.node FIFFB_EVOKED
          (((if D.comment.length > 0 then [write_string FIFF_COMMENT D.comment] else [])
            ++ [write_int FIFF_FIRST_SAMPLE D.first,
                write_int FIFF_LAST_SAMPLE D.last]).map entryOf) [aspTreeOf f32 D])
        = ((if D.comment.length > 0 then [write_string FIFF_COMMENT D.comment] else [])
            ++ [write_int FIFF_FIRST_SAMPLE D.first,
                write_int FIFF_LAST_SAMPLE D.last]).map entryOf from rfl]
      rw [if_pos hc]
      rfl]
    rw [if_pos hc]
    rfl
  · rw [show (evokedTreeOf f32 D).directory
        = [entryOf (write_int FIFF_FIRST_SAMPLE D.first),
           entryOf (write_int FIFF_LAST_SAMPLE D.last)] from by
      rw [evokedTreeOf]
      rw [show Tree.directory (Tree.node FIFFB_EVOKED
          (((if D.comment.length > 0 then [write_string FIFF_COMMENT D.comment] else [])
            ++ [write_int FIFF_FIRST_SAMPLE D.first,
                write_int FIFF_LAST_SAMPLE D.last]).map entryOf) [aspTreeOf f32 D])
        = ((if D.comment.length > 0 then [write_string FIFF_COMMENT D.comment] else [])
            ++ [write_int FIFF_FIRST_SAMPLE D.first,
                write_int FIFF_LAST_SAMPLE D.last]).map entryOf from rfl]
      rw [if_neg hc]
      rfl]
    rw [if_neg hc]
    rfl

theorem aspect_scan_parsed (f32 : Rat → Rat) (D : Evoked) :
    List.foldlM asp_scan_step (⟨none, none, 1, []⟩ : AspScan)
      (aspTreeOf f32 D).directory
      = .ok ⟨none, some (i32 D.aspect_kind), i32 D.nave,
             [.matrixData ((decalRaw D).map (fun r => r.map f32))]⟩ := rfl

theorem assembleCore_parsed (f32 : Rat → Rat) (D : Evoked) (info0 : MeasInfo)
    (hnchan : info0.nchan = D.info.nchan)
    (hchs0 : info0.chs = (D.info.chs.take D.info.nchan.toNat).mapIdx
        (fun k ch => chWire f32 { ch with scanno := (k : Int) }))
    (hsf : info0.sfreq = f32 D.info.sfreq)
    (hnc0 : 0 < D.info.nchan)
    (hchs : (D.info.chs.length : Int) = D.info.nchan)
    (hrows : (D.data.length : Int) = D.info.nchan)
    (hrect : ∀ r ∈ D.data, r.length = ncols D.data)
    (hcols : (ncols D.data : Int) = D.last - D.first + 1)
    (hf1 : -(2 ^ 31) ≤ D.first) (hf2 : D.first < 2 ^ 31)
    (hl1 : -(2 ^ 31) ≤ D.last) (hl2 : D.last < 2 ^ 31)
    (hn1 : -(2 ^ 31) ≤ D.nave) (hn2 : D.nave < 2 ^ 31)
    (ha1 : -(2 ^ 31) ≤ D.aspect_kind) (ha2 : D.aspect_kind < 2 ^ 31) :
    assembleCore info0 (evokedTreeOf f32 D) (aspTreeOf f32 D)
      = .ok { info := info0, nave := D.nave, aspect_kind := D.aspect_kind,
              first := D.first, last := D.last,
              comment := if D.comment.length > 0 then D.comment else "No comment",
              times := (List.range (D.last + 1 - D.first).toNat).map
                (fun i : Nat => ((D.first + (i : Int) : Int) : Rat) / f32 D.info.sfreq),
              data := List.zipWith (fun p row => row.map
                (fun x => f32 p.cal * f32 (1 / p.cal * x))) D.info.chs D.data } := by
  simp only [assembleCore, evoked_scan_parsed, exceptBind_ok]
  rw [if_neg (by norm_num)]
  simp only [exceptPure, exceptBind_ok, requireVal_some]
  rw [aspect_scan_parsed]
  simp only [exceptBind_ok, requireVal_some, exceptPure]
  simp only [Option.getD_none, optIf_getD]
  rw [i32_eq_self hf1 hf2, i32_eq_self hl1 hl2, i32_eq_self hn1 hn2,
    i32_eq_self ha1 ha2]
  exact finishAssembly_parsed f32 info0 _ _ _ D hnchan hchs0 hsf hnc0 hchs hrows
    hrect hcols

theorem readEvokedFrom_parsed (f32 : Rat → Rat) (D : Evoked) (info0 : MeasInfo)
    (hD : ValidEvoked D)
    (hnchan : info0.nchan = D.info.nchan)
    (hchs0 : info0.chs = (D.info.chs.take D.info.nchan.toNat).mapIdx
        (fun k ch => chWire f32 { ch with scanno := (k : Int) }))
    (hsf : info0.sfreq = f32 D.info.sfreq) :
    readEvokedFrom (measTreeOf f32 D) info0 0 none
      = .ok { info := info0, nave := D.nave, aspect_kind := D.aspect_kind,
              first := D.first, last := D.last,
              comment := if D.comment.length > 0 then D.comment else "No comment",
              times := (List.range (D.last + 1 - D.first).toNat).map
                (fun i : Nat => ((D.first + (i : Int) : Int) : Rat) / f32 D.info.sfreq),
              data := List.zipWith (fun p row => row.map
                (fun x => f32 p.cal * f32 (1 / p.cal * x))) D.info.chs D.data } := by
  obtain ⟨hfn, hdev, hctf, hnc0, hncU, hchs, hrows, hrect, hcal, hcols,
    hf1, hf2, hl1, hl2, hn1, hn2, ha1, ha2, htimes⟩ := hD
  simp only [readEvokedFrom, find_proc, find_evoked]
  rw [if_neg (by norm_num : ¬ (0 : Int) < 0)]
  rw [if_neg (by simp : ¬ ([Tree.node FIFFB_PROCESSED_DATA [] [evokedTreeOf f32 D]] :
    List Tree).length = 0)]
  rw [if_neg (by simp : ¬ ([evokedTreeOf f32 D] : List Tree).length = 0)]
  rw [identifySets_parsed]
  simp only [exceptBind_ok]
  rw [if_neg (by norm_num)]
  rw [selectUnit_parsed]
  simp only [exceptBind_ok]
  simp only [assembleUnit,
    assembleCore_parsed f32 D info0 hnchan hchs0 hsf hnc0 hchs hrows hrect hcols
      hf1 hf2 hl1 hl2 hn1 hn2 ha1 ha2, exceptBind_ok]
  rw [show applyBaseline none ((List.range (D.last + 1 - D.first).toNat).map
      (fun i : Nat => ((D.first + (i : Int) : Int) : Rat) / f32 D.info.sfreq))
      (List.zipWith (fun p row => row.map
        (fun x => f32 p.cal * f32 (1 / p.cal * x))) D.info.chs D.data)
    = .ok (List.zipWith (fun p row => row.map
        (fun x => f32 p.cal * f32 (1 / p.cal * x))) D.info.chs D.data) from rfl]
  rfl

theorem roundTrip (f32 : Rat → Rat) (fs : String → Option Tree) (fname : String)
    (D : Evoked) (hD : ValidEvoked D) :
    read_evoked fname (write_evoked f32 fs D).events 0 none
      = .ok (EOut f32 fname D) := by
  rw [save_eq f32 fs D hD.1 hD.2.1 hD.2.2.1 (le_of_lt hD.2.2.2.1) hD.2.2.2.2.2.1
    hD.2.2.2.2.2.2.1 hD.2.2.2.2.2.2.2.1]
  rw [show (SaveOut.mk (eventsOf f32 D)
      { D with info := { D.info with chs := renumberChs D.info } } none).events
    = eventsOf f32 D from rfl]
  simp only [read_evoked, parse_events, read_meas_info_parsed, exceptBind_ok]
  exact readEvokedFrom_parsed f32 D _ hD
    (by
      simp only [infoRead]
      exact i32_eq_self (by have h1 := hD.2.2.2.1; omega) hD.2.2.2.2.1)
    (by simp [infoRead]) (by simp [infoRead])

theorem zipWith_ext {α β γ : Type _} (f g : α → β → γ)
    (h : ∀ a b, f a b = g a b) (l₁ : List α) (l₂ : List β) :
    List.zipWith f l₁ l₂ = List.zipWith g l₁ l₂ := by
  rw [show f = g from funext fun a => funext fun b => h a b]

theorem zip_roundtrip_id :
    ∀ (chs : List ChInfo) (data : Mat), (∀ ch ∈ chs, ch.cal ≠ 0) →
    data.length = chs.length →
    List.zipWith (fun p row => row.map (fun x => p.cal * (1 / p.cal * x))) chs data
      = data := by
  intro chs
  induction chs with
  | nil =>
    intro data hcal hlen
    rw [List.length_eq_zero.mp hlen]
    rfl
  | cons p t ih =>
    intro data hcal hlen
    cases data with
    | nil => rfl
    | cons r rs =>
      rw [List.zipWith_cons_cons]
      rw [ih rs (fun ch hch => hcal ch (by simp [hch])) (by simpa using hlen)]
      rw [show r.map (fun x => p.cal * (1 / p.cal * x)) = r.map id from
        List.map_congr_left fun x _ => by
          rw [← mul_assoc, mul_one_div_cancel (hcal p (by simp)), one_mul, id]]
      rw [List.map_id]

/-- C1: writing a valid dataset to a fresh file and reading it back
succeeds and yields a dataset whose `nave`, `aspect_kind`, `first` and
`last` are exactly the originals; the data matrix and time axis are the
originals up to the float32 wire re-encoding `f32` (each datum comes
back as `f32 cal * f32 (cal⁻¹ * x)`, each time as `(first + i) / f32
sfreq`), so under a lossless re-encoding both are exactly equal. -/
theorem c1_round_trip (f32 : Rat → Rat) (fs : String → Option Tree) (fname : String)
    (D : Evoked) (hD : ValidEvoked D) :
    ∃ E, read_evoked fname (write_evoked f32 fs D).events 0 none = .ok E
      ∧ E.nave = D.nave ∧ E.aspect_kind = D.aspect_kind
      ∧ E.first = D.first ∧ E.last = D.last
      ∧ E.data = List.zipWith (fun p row => row.map
          (fun x => f32 p.cal * f32 (1 / p.cal * x))) D.info.chs D.data
      ∧ E.times = (List.range (D.last + 1 - D.first).toNat).map
          (fun i : Nat => ((D.first + (i : Int) : Int) : Rat) / f32 D.info.sfreq)
      ∧ ((∀ q, f32 q = q) → E.data = D.data ∧ E.times = D.times) := by
  have hD2 := hD
  obtain ⟨hfn, hdev, hctf, hnc0, hncU, hchs, hrows, hrect, hcal, hcols,
    hf1, hf2, hl1, hl2, hn1, hn2, ha1, ha2, htimes⟩ := hD2
  refine ⟨EOut f32 fname D, roundTrip f32 fs fname D hD, rfl, rfl, rfl, rfl, rfl, rfl, ?_⟩
  intro hf
  constructor
  · show List.zipWith (fun p row => row.map
        (fun x => f32 p.cal * f32 (1 / p.cal * x))) D.info.chs D.data = D.data
    rw [zipWith_ext
      (fun (p : ChInfo) (row : List Rat) => row.map (fun x => f32 p.cal * f32 (1 / p.cal * x)))
      (fun (p : ChInfo) (row : List Rat) => row.map (fun x => p.cal * (1 / p.cal * x)))
      (fun p row => by simp [hf])]
    exact zip_roundtrip_id D.info.chs D.data hcal (by omega)
  · show (List.range (D.last + 1 - D.first).toNat).map
        (fun i : Nat => ((D.first + (i : Int) : Int) : Rat) / f32 D.info.sfreq) = D.times
    rw [hf]
    exact htimes.symm

theorem commentTags_append (a b : List WTag) :
    commentTags (a ++ b) = commentTags a ++ commentTags b := by
  simp [commentTags, List.filter_append]

theorem commentTags_nil_of (l : List WTag)
    (h : ∀ tg ∈ l, tg.kind ≠ FIFF_COMMENT) : commentTags l = [] := by
  rw [commentTags, List.filter_eq_nil_iff]
  intro tg htg
  simp [h tg htg]

theorem commentTags_eventsOf (f32 : Rat → Rat) (D : Evoked) :
    commentTags (eventsOf f32 D)
      = (if D.comment.length > 0 then [write_string FIFF_COMMENT D.comment] else []) := by
  rw [eventsOf]
  repeat rw [commentTags_append]
  rw [commentTags_nil_of start_file_tags (by decide)]
  rw [commentTags_nil_of [start_block FIFFB_MEAS, write_id FIFF_BLOCK_ID] (by decide)]
  rw [commentTags_nil_of (match D.info.meas_id with
    | some _ => [write_id FIFF_PARENT_BLOCK_ID]
    | none => []) (by
      cases D.info.meas_id <;> simp [write_id, FIFF_PARENT_BLOCK_ID, FIFF_COMMENT])]
  rw [commentTags_nil_of [start_block FIFFB_MEAS_INFO,
      write_float f32 FIFF_SFREQ D.info.sfreq,
      write_float f32 FIFF_HIGHPASS D.info.highpass,
      write_float f32 FIFF_LOWPASS D.info.lowpass,
      write_int FIFF_NCHAN D.info.nchan] (by
    intro tg htg
    rcases List.mem_cons.mp htg with rfl | htg
    · simp [start_block, write_int, FIFFB_MEAS_INFO, FIFF_BLOCK_START, FIFF_COMMENT]
    rcases List.mem_cons.mp htg with rfl | htg
    · simp [write_float, FIFF_SFREQ, FIFF_COMMENT]
    rcases List.mem_cons.mp htg with rfl | htg
    · simp [write_float, FIFF_HIGHPASS, FIFF_COMMENT]
    rcases List.mem_cons.mp htg with rfl | htg
    · simp [write_float, FIFF_LOWPASS, FIFF_COMMENT]
    rcases List.mem_cons.mp htg with rfl | htg
    · simp [write_int, FIFF_NCHAN, FIFF_COMMENT]
    simp at htg)]
  rw [commentTags_nil_of (match D.info.meas_date with
    | some d => [write_int FIFF_MEAS_DATE d]
    | none => []) (by
      cases D.info.meas_date with
      | none => intro tg htg; simp at htg
      | some d =>
        intro tg htg
        rw [List.mem_singleton] at htg
        subst htg
        simp [write_int, FIFF_MEAS_DATE, FIFF_COMMENT])]
  rw [commentTags_nil_of ((D.info.chs.take D.info.nchan.toNat).mapIdx
      (fun k ch => write_ch_info f32 { ch with scanno := (k : Int) })) (by
    intro tg htg
    rw [List.mapIdx_eq_enum_map] at htg
    obtain ⟨⟨k, ch⟩, -, rfl⟩ := List.mem_map.mp htg
    simp [Function.uncurry, write_ch_info, FIFF_CH_INFO, FIFF_COMMENT])]
  rw [commentTags_nil_of (match D.info.dig with
    | some dig => start_block FIFFB_ISOTRAK ::
        (dig.map (write_dig_point f32) ++ [end_block FIFFB_ISOTRAK])
    | none => []) (by
      cases D.info.dig with
      | none => intro tg htg; simp at htg
      | some dig =>
        intro tg htg
        rcases List.mem_cons.mp htg with rfl | htg
        · simp [start_block, write_int, FIFFB_ISOTRAK, FIFF_BLOCK_START, FIFF_COMMENT]
        rcases List.mem_append.mp htg with htg | htg
        · obtain ⟨d, -, rfl⟩ := List.mem_map.mp htg
          simp [write_dig_point, FIFF_DIG_POINT, FIFF_COMMENT]
        · rw [List.mem_singleton] at htg
          subst htg
          simp [end_block, write_int, FIFFB_ISOTRAK, FIFF_BLOCK_END, FIFF_COMMENT])]
  rw [commentTags_nil_of (start_block FIFFB_PROJ ::
      (D.info.projs.map (write_int FIFF_PROJ_ITEM) ++ [end_block FIFFB_PROJ])) (by
    intro tg htg
    rcases List.mem_cons.mp htg with rfl | htg
    · simp [start_block, write_int, FIFFB_PROJ, FIFF_BLOCK_START, FIFF_COMMENT]
    rcases List.mem_append.mp htg with htg | htg
    · obtain ⟨p, -, rfl⟩ := List.mem_map.mp htg
      simp [write_int, FIFF_PROJ_ITEM, FIFF_COMMENT]
    · rw [List.mem_singleton] at htg
      subst htg
      simp [end_block, write_int, FIFFB_PROJ, FIFF_BLOCK_END, FIFF_COMMENT])]
  rw [commentTags_nil_of (start_block FIFFB_MNE_CTF_COMP ::
      ((D.info.comps.getD []).map (write_int FIFF_CTF_COMP_DATA)
        ++ [end_block FIFFB_MNE_CTF_COMP])) (by
    intro tg htg
    rcases List.mem_cons.mp htg with rfl | htg
    · simp [start_block, write_int, FIFFB_MNE_CTF_COMP, FIFF_BLOCK_START, FIFF_COMMENT]
    rcases List.mem_append.mp htg with htg | htg
    · obtain ⟨p, -, rfl⟩ := List.mem_map.mp htg
      simp [write_int, FIFF_CTF_COMP_DATA, FIFF_COMMENT]
    · rw [List.mem_singleton] at htg
      subst htg
      simp [end_block, write_int, FIFFB_MNE_CTF_COMP, FIFF_BLOCK_END, FIFF_COMMENT])]
  rw [commentTags_nil_of (if D.info.bads.length > 0 then
      [start_block FIFFB_MNE_BAD_CHANNELS,
       write_name_list FIFF_MNE_CH_NAME_LIST D.info.bads,
       end_block FIFFB_MNE_BAD_CHANNELS] else []) (by
    by_cases hb : D.info.bads.length > 0
    · rw [if_pos hb]
      intro tg htg
      rcases List.mem_cons.mp htg with rfl | htg
      · simp [start_block, write_int, FIFFB_MNE_BAD_CHANNELS, FIFF_BLOCK_START,
          FIFF_COMMENT]
      rcases List.mem_cons.mp htg with rfl | htg
      · simp [write_name_list, write_string, FIFF_MNE_CH_NAME_LIST, FIFF_COMMENT]
      rcases List.mem_cons.mp htg with rfl | htg
      · simp [end_block, write_int, FIFFB_MNE_BAD_CHANNELS, FIFF_BLOCK_END,
          FIFF_COMMENT]
      simp at htg
    · rw [if_neg hb]
      intro tg htg
      simp at htg)]
  rw [commentTags_nil_of [end_block FIFFB_MEAS_INFO, start_block FIFFB_PROCESSED_DATA,
      start_block FIFFB_EVOKED] (by decide)]
  rw [commentTags_nil_of [write_int FIFF_FIRST_SAMPLE D.first,
      write_int FIFF_LAST_SAMPLE D.last,
      start_block FIFFB_ASPECT, write_int FIFF_ASPECT_KIND D.aspect_kind,
      write_int FIFF_NAVE D.nave,
      write_float_matrix f32 FIFF_EPOCH (decalRaw D),
      end_block FIFFB_ASPECT, end_block FIFFB_EVOKED,
      end_block FIFFB_PROCESSED_DATA, end_block FIFFB_MEAS, end_file_tag] (by
    intro tg htg
    rcases List.mem_cons.mp htg with rfl | htg
    · simp [write_int, FIFF_FIRST_SAMPLE, FIFF_COMMENT]
    rcases List.mem_cons.mp htg with rfl | htg
    · simp [write_int, FIFF_LAST_SAMPLE, FIFF_COMMENT]
    rcases List.mem_cons.mp htg with rfl | htg
    · simp [start_block, write_int, FIFFB_ASPECT, FIFF_BLOCK_START, FIFF_COMMENT]
    rcases List.mem_cons.mp htg with rfl | htg
    · simp [write_int, FIFF_ASPECT_KIND, FIFF_COMMENT]
    rcases List.mem_cons.mp htg with rfl | htg
    · simp [write_int, FIFF_NAVE, FIFF_COMMENT]
    rcases List.mem_cons.mp htg with rfl | htg
    · simp [write_float_matrix, FIFF_EPOCH, FIFF_COMMENT]
    rcases List.mem_cons.mp htg with rfl | htg
    · simp [end_block, write_int, FIFFB_ASPECT, FIFF_BLOCK_END, FIFF_COMMENT]
    rcases List.mem_cons.mp htg with rfl | htg
    · simp [end_block, write_int, FIFFB_EVOKED, FIFF_BLOCK_END, FIFF_COMMENT]
    rcases List.mem_cons.mp htg with rfl | htg
    · simp [end_block, write_int, FIFFB_PROCESSED_DATA, FIFF_BLOCK_END, FIFF_COMMENT]
    rcases List.mem_cons.mp htg with rfl | htg
    · simp [end_block, write_int, FIFFB_MEAS, FIFF_BLOCK_END, FIFF_COMMENT]
    rcases List.mem_cons.mp htg with rfl | htg
    · simp [end_file_tag, FIFF_NOP, FIFF_COMMENT]
    simp at htg)]
  by_cases hc : D.comment.length > 0
  · rw [if_pos hc]
    simp [commentTags, List.filter, write_string, FIFF_COMMENT]
  · rw [if_neg hc]
    simp [commentTags]

theorem validE0W : ValidEvoked E0W := by
  refine ⟨rfl, rfl, rfl, by decide, by decide, by decide, by decide, by decide,
    by decide, by decide, by decide, by decide, by decide, by decide, by decide,
    by decide, by decide, by decide, ?_⟩
  show E0W.times = (List.range (E0W.last + 1 - E0W.first).toNat).map
    (fun i : Nat => ((E0W.first + (i : Int) : Int) : Rat) / E0W.info.sfreq)
  rw [show (E0W.last + 1 - E0W.first).toNat = 3 from rfl]
  rw [show List.range 3 = [0, 1, 2] from rfl]
  simp only [List.map_cons, List.map_nil]
  norm_num [E0W, infoW]

theorem validE10 : ValidEvoked E10 := by
  refine ⟨rfl, rfl, rfl, by decide, by decide, by decide, by decide, by decide,
    by decide, by decide, by decide, by decide, by decide, by decide, by decide,
    by decide, by decide, by decide, ?_⟩
  show E10.times = (List.range (E10.last + 1 - E10.first).toNat).map
    (fun i : Nat => ((E10.first + (i : Int) : Int) : Rat) / E10.info.sfreq)
  rw [show (E10.last + 1 - E10.first).toNat = 3 from rfl]
  rw [show List.range 3 = [0, 1, 2] from rfl]
  simp only [List.map_cons, List.map_nil]
  norm_num [E10, E0W, infoW]

/-- C1, witness: the one-channel fixture round trips through a lossless
re-encoding. -/
theorem c1_witness :
    ∃ E, read_evoked "t.fif" (write_evoked id (fun _ => none) E0W).events 0 none = .ok E
      ∧ E.nave = E0W.nave ∧ E.aspect_kind = E0W.aspect_kind
      ∧ E.first = E0W.first ∧ E.last = E0W.last
      ∧ E.data = List.zipWith (fun p row => row.map
          (fun x => id p.cal * id (1 / p.cal * x))) E0W.info.chs E0W.data
      ∧ E.times = (List.range (E0W.last + 1 - E0W.first).toNat).map
          (fun i : Nat => ((E0W.first + (i : Int) : Int) : Rat) / id E0W.info.sfreq)
      ∧ ((∀ q : Rat, id q = q) → E.data = E0W.data ∧ E.times = E0W.times) :=
  c1_round_trip id (fun _ => none) "t.fif" E0W validE0W

/-- C10: a fresh save emits a comment tag exactly when the dataset's
comment is nonempty, and reading back a dataset saved with an empty
comment yields the default comment `"No comment"`, not the empty
string. -/
theorem c10_comment_default (f32 : Rat → Rat) (fs : String → Option Tree)
    (fname : String) (D : Evoked) (hD : ValidEvoked D) :
    commentTags (write_evoked f32 fs D).events
      = (if D.comment.length > 0 then [write_string FIFF_COMMENT D.comment] else [])
    ∧ (D.comment = "" →
        ∃ E, read_evoked fname (write_evoked f32 fs D).events 0 none = .ok E
          ∧ E.comment = "No comment") := by
  constructor
  · rw [save_eq f32 fs D hD.1 hD.2.1 hD.2.2.1 (le_of_lt hD.2.2.2.1) hD.2.2.2.2.2.1
      hD.2.2.2.2.2.2.1 hD.2.2.2.2.2.2.2.1]
    rw [show (SaveOut.mk (eventsOf f32 D)
        { D with info := { D.info with chs := renumberChs D.info } } none).events
      = eventsOf f32 D from rfl]
    exact commentTags_eventsOf f32 D
  · intro hc
    refine ⟨EOut f32 fname D, roundTrip f32 fs fname D hD, ?_⟩
    show (if D.comment.length > 0 then D.comment else "No comment") = "No comment"
    rw [hc]
    rfl

/-- C10, witness: the empty-comment fixture produces no comment tag and
reads back with the default comment. -/
theorem c10_witness :
    commentTags (write_evoked id (fun _ => none) E10).events
      = (if E10.comment.length > 0 then [write_string FIFF_COMMENT E10.comment] else [])
    ∧ (E10.comment = "" →
        ∃ E, read_evoked "t.fif" (write_evoked id (fun _ => none) E10).events 0 none
          = .ok E ∧ E.comment = "No comment") :=
  c10_comment_default id (fun _ => none) "t.fif" E10 validE10

end Fiff
